import Mathlib

/-!
Verification development for the cell / bag-of-cells core of a TON
serialization library (tonlib-rs).  The Rust sources are embedded shallowly:

* bytes are `Nat` values (kept below 256 by construction at every read site);
* fallible Rust functions returning `Result` become functions into `Res`,
  which has a third constructor `crash` modelling a Rust panic
  (out-of-bounds indexing, arithmetic overflow of `usize`/`u32` subtraction);
* the sequential `ByteReader` of the BoC parser becomes a state function on
  the remaining byte list;
* `BigUint` values become `Nat`, `HashMap`s become association lists.

Machine integer casts (`as u8`, `as u32`) are modelled by explicit `% 2^w`.
-/

namespace Ton

/-- Error type of the library (`TonCellError`).  The `error.rs` module is not
part of the sources given here, so the constructors are modelled from the
spec's error taxonomy and the constructor helpers used at every call site
(`boc_deserialization_error`, `cell_parser_error`, ...).  Each helper is
modelled as wrapping its message unchanged. -/
inductive TonCellError : Type where
  | bocDes (msg : String)
  | bocSer (msg : String)
  | cellParserErr (msg : String)
  | cellBuilderErr (msg : String)
  | bagOfCellsDes (msg : String)
  | invalidIndex (idx refCount : Nat)
  | invalidAddressType (t : Nat)
  | nonEmptyReader (bits : Nat)
deriving DecidableEq, Repr

/-- Result of running embedded Rust code: success, a returned `Err`, or a
panic (`crash`). -/
inductive Res (α : Type) : Type where
  | ok (a : α)
  | err (e : TonCellError)
  | crash
deriving DecidableEq, Repr

namespace Res

def bind {α β : Type} : Res α → (α → Res β) → Res β
  | ok a, f => f a
  | err e, _ => err e
  | crash, _ => crash

instance : Monad Res where
  pure := Res.ok
  bind := Res.bind

end Res

/-- The message used where the embedded reader hits the end of the input; the
Rust code converts the io error of `bitstream_io` to a message string. -/
def eofMsg : String := "unexpected end of input"

/-! ## Byte utilities shared by the embeddings -/

/-- Big-endian byte encoding of `v % 2^(8*n)` on exactly `n` bytes. -/
def beBytes : Nat → Nat → List Nat
  | 0, _ => []
  | n + 1, v => beBytes n (v / 256) ++ [v % 256]

/-- Halving loop for `bitLength`, with the iteration count made explicit so
that the recursion is structural (32 iterations cover any `u32` value). -/
def bitLengthGo : Nat → Nat → Nat
  | 0, _ => 0
  | fuel + 1, v => if v = 0 then 0 else bitLengthGo fuel (v / 2) + 1

/-- Number of bits needed to write `n` (position of the highest set bit + 1);
this is `32 - leading_zeros` for a `u32` value (every use site reduces its
argument modulo `2^32` first). -/
def bitLength (v : Nat) : Nat := bitLengthGo 32 v

/-- Number of low zero bits of a byte, with 8 returned for the zero byte
(`u8::trailing_zeros`). -/
def trailingZeros8 (b : Nat) : Nat :=
  if b % 2 = 1 then 0
  else if b / 2 % 2 = 1 then 1
  else if b / 4 % 2 = 1 then 2
  else if b / 8 % 2 = 1 then 3
  else if b / 16 % 2 = 1 then 4
  else if b / 32 % 2 = 1 then 5
  else if b / 64 % 2 = 1 then 6
  else if b / 128 % 2 = 1 then 7
  else 8

/-! ## SHA-256, executable, used by the cell finalizer and `cell_hash`

A from-scratch word-level transcription of FIPS 180-4 over `Nat`, wrapping
explicitly modulo `2^32`; only what `sha2::Sha256` needs. -/

namespace Sha

def w32 : Nat := 4294967296

/-- The 64 round constants, in decimal. -/
def kconst : List Nat :=
  [1116352408, 1899447441, 3049323471, 3921009573, 961987163,
   1508970993, 2453635748, 2870763221, 3624381080, 310598401,
   607225278, 1426881987, 1925078388, 2162078206, 2614888103,
   3248222580, 3835390401, 4022224774, 264347078, 604807628,
   770255983, 1249150122, 1555081692, 1996064986, 2554220882,
   2821834349, 2952996808, 3210313671, 3336571891, 3584528711,
   113926993, 338241895, 666307205, 773529912, 1294757372,
   1396182291, 1695183700, 1986661051, 2177026350, 2456956037,
   2730485921, 2820302411, 3259730800, 3345764771, 3516065817,
   3600352804, 4094571909, 275423344, 430227734, 506948616,
   659060556, 883997877, 958139571, 1322822218, 1537002063,
   1747873779, 1955562222, 2024104815, 2227730452, 2361852424,
   2428436474, 2756734187, 3204031479, 3329325298]

/-- The initial state, in decimal. -/
def h0 : List Nat :=
  [1779033703, 3144134277, 1013904242, 2773480762, 1359893119,
   2600822924, 528734635, 1541459225]

def rotr32 (x n : Nat) : Nat := (x / 2 ^ n + x * 2 ^ (32 - n)) % w32

def bigSigma0 (x : Nat) : Nat := rotr32 x 22 ^^^ (rotr32 x 2 ^^^ rotr32 x 13)

def bigSigma1 (x : Nat) : Nat := rotr32 x 25 ^^^ (rotr32 x 6 ^^^ rotr32 x 11)

def smallSigma0 (x : Nat) : Nat := x / 8 ^^^ (rotr32 x 7 ^^^ rotr32 x 18)

def smallSigma1 (x : Nat) : Nat := x / 1024 ^^^ (rotr32 x 17 ^^^ rotr32 x 19)

def ch (x y z : Nat) : Nat := (x &&& y) ^^^ ((4294967295 - x) &&& z)

def maj (x y z : Nat) : Nat := (x &&& z) ^^^ ((x &&& y) ^^^ (y &&& z))

/-- Group a byte list into big-endian 32-bit words. -/
def toWords : List Nat → List Nat
  | a :: b :: c :: d :: rest => (((a * 256 + b) * 256 + c) * 256 + d) :: toWords rest
  | _ => []

/-- Extend a 16-word block with `n` further schedule words. -/
def extendW : Nat → List Nat → List Nat
  | 0, w => w
  | n + 1, w =>
    let l := w.length
    let x := (smallSigma1 (w.getD (l - 2) 0) + w.getD (l - 7) 0 +
              smallSigma0 (w.getD (l - 15) 0) + w.getD (l - 16) 0) % w32
    extendW n (w ++ [x])

def round (st : List Nat) (kw : Nat) : List Nat :=
  match st with
  | [a, b, c, d, e, f, g, h] =>
    let t1 := (h + bigSigma1 e + ch e f g + kw) % w32
    let t2 := (bigSigma0 a + maj a b c) % w32
    [(t1 + t2) % w32, a, b, c, (d + t1) % w32, e, f, g]
  | st => st

def compress (h : List Nat) (chunk : List Nat) : List Nat :=
  let w := extendW 48 (toWords chunk)
  let kw := List.zipWith (fun a b => (a + b) % w32) kconst w
  let fin := kw.foldl round h
  List.zipWith (fun a b => (a + b) % w32) h fin

/-- Split into `n` chunks of 64 bytes (`n` is the number of 64-byte blocks of
the padded message, so this is exactly a split into blocks). -/
def chunksN : Nat → List Nat → List (List Nat)
  | 0, _ => []
  | n + 1, l => l.take 64 :: chunksN n (l.drop 64)

def pad (msg : List Nat) : List Nat :=
  let zeros := (64 - (msg.length + 9) % 64) % 64
  msg ++ [128] ++ List.replicate zeros 0 ++ beBytes 8 (msg.length * 8)

def wordToBytes (w : Nat) : List Nat :=
  [w / 16777216 % 256, w / 65536 % 256, w / 256 % 256, w % 256]

end Sha

/-- SHA-256 of a byte list (the `sha2` crate digest used by the sources). -/
def sha256 (msg : List Nat) : List Nat :=
  let padded := Sha.pad msg
  ((Sha.chunksN (padded.length / 64) padded).foldl Sha.compress Sha.h0).flatMap

    Sha.wordToBytes

/-! ## The sequential byte reader (`ByteReader` over a `Cursor`) -/

/-- A computation of the byte reader: consumes a front part of the remaining
input bytes. -/
def RB (α : Type) : Type := List Nat → Res (α × List Nat)

namespace RB

def bindRB {α β : Type} (m : RB α) (f : α → RB β) : RB β := fun s =>
  match m s with
  | Res.ok (a, s1) => f a s1
  | Res.err e => Res.err e
  | Res.crash => Res.crash

instance : Monad RB where
  pure a := fun s => Res.ok (a, s)
  bind := bindRB

def fail {α : Type} (e : TonCellError) : RB α := fun _ => Res.err e

/-- Read one byte; end of input is an io error that the call sites convert
into a `BocDeserializationError`. -/
def readByte : RB Nat := fun s =>
  match s with
  | [] => Res.err (TonCellError.bocDes eofMsg)
  | b :: rest => Res.ok (b, rest)

/-- `reader.read_to_vec(n)`. -/
def readToVec : Nat → RB (List Nat)
  | 0 => pure []
  | n + 1 => do
    let b ← readByte
    let rest ← readToVec n
    pure (b :: rest)

/-- A big-endian fixed-width read such as `reader.read::<u32>()`. -/
def readBE (n : Nat) : RB Nat := do
  let bytes ← readToVec n
  pure (bytes.foldl (fun acc b => (acc <<< 8) ||| b) 0)

/-- Run a reader `n` times collecting the results (the `for` loops of the
parser). -/
def readList {α : Type} : Nat → RB α → RB (List α)
  | 0, _ => pure []
  | n + 1, m => do
    let a ← m
    let rest ← readList n m
    pure (a :: rest)

/-- Number of unread bytes (`serial.len() - position_in_bits()/8`). -/
def remainingLen : RB Nat := fun s => Res.ok (s.length, s)

def liftRes {α : Type} (r : Res α) : RB α := fun s =>
  match r with
  | Res.ok a => Res.ok (a, s)
  | Res.err e => Res.err e
  | Res.crash => Res.crash

/-- A reader consumes a determined prefix of its input: on success the
unread rest is a suffix of the input, and the run is unchanged when that
unread suffix is replaced by any other suffix of the same length.  (A
reader may inspect the remaining *length*, as `parse` does through
`remainingLen`, but nothing else about bytes it does not consume.)  Every
reader of this development satisfies this. -/
def ConsumesPrefix {α : Type} (m : RB α) : Prop :=
  ∀ u a r, m u = Res.ok (a, r) → ∃ p, u = p ++ r ∧
    ∀ s, s.length = r.length → m (p ++ s) = Res.ok (a, s)

end RB

/-! ## raw.rs: `RawCell`, `RawBagOfCells::parse` -/

/-- The `CellType` enum discriminants. -/
def CellType.ordinaryCell : Nat := 255

def CellType.prunnedBranchCell : Nat := 1

def CellType.libraryCell : Nat := 2

def CellType.merkleProofCell : Nat := 3

def CellType.merkleUpdateCell : Nat := 4

structure RawCell where
  data : List Nat
  bit_len : Nat
  references : List Nat
  max_level : Nat
  cell_type : Nat
  is_exotic : Bool
  has_hashes : Bool
deriving DecidableEq, Repr

structure RawBagOfCells where
  cells : List RawCell
  roots : List Nat
deriving DecidableEq, Repr

namespace Raw

/-- raw.rs `get_level_from_mask`: popcount of the low 3 bits, plus one. -/
def get_level_from_mask (mask : Nat) : Nat :=
  (mask &&& 1) + ((mask >>> 1) &&& 1) + ((mask >>> 2) &&& 1) + 1

/-- raw.rs `get_hash_count`. -/
def get_hash_count (level_mask : Nat) : Nat :=
  get_level_from_mask (level_mask &&& 7)

end Raw

/-- util.rs `resolve_cell_type`; `is_exotic` is passed by `&mut`, so the
updated flag is returned alongside the cell type. -/
def resolve_cell_type (is_exotic : Bool) (data : List Nat) : Nat × Bool :=
  match data with
  | [] => (CellType.ordinaryCell, false)
  | b :: _ =>
    if is_exotic ∧ (b = CellType.prunnedBranchCell ∨ b = CellType.libraryCell ∨
        b = CellType.merkleProofCell ∨ b = CellType.merkleUpdateCell) then
      (b, is_exotic)
    else
      (CellType.ordinaryCell, false)

/-- The padding-stripping step of `read_cell`: fix the last byte when the
descriptor marks it as partial.  Returns the fixed data and the pad length.
Clearing the lowest set bit `k` of a `u8` with `b &= !(1 << k)` equals
masking with the 8-bit complement. -/
def fixPadding (data : List Nat) (full_bytes : Bool) : Res (List Nat × Nat) :=
  if data.length > 0 ∧ full_bytes = false then
    let lastb := data.getD (data.length - 1) 0
    let num_zeros := trailingZeros8 lastb
    if num_zeros ≥ 8 then
      Res.err (TonCellError.bocDes
        "Last byte of binary must not be zero if full_byte flag is not set")
    else
      Res.ok (data.set (data.length - 1) (lastb &&& (255 ^^^ (1 <<< num_zeros))),
        num_zeros + 1)
  else
    Res.ok (data, 0)

/-- raw.rs `read_var_size`. -/
def read_var_size (n : Nat) : RB Nat := RB.readBE n

/-- raw.rs `read_cell`. -/
def read_cell (size : Nat) : RB RawCell := do
  let d1 ← RB.readByte
  let d2 ← RB.readByte
  let max_level := d1 >>> 5
  let is_exotic0 := decide (d1 &&& 8 ≠ 0)
  let ref_num := d1 &&& 7
  let data_size := (d2 >>> 1) + (d2 &&& 1)
  let full_bytes := decide (d2 &&& 1 = 0)
  let has_hashes := decide (d1 &&& 16 ≠ 0)
  let hashes_size := if has_hashes then Raw.get_hash_count max_level * 32 else 0
  let depth_size := if has_hashes then Raw.get_hash_count max_level * 2 else 0
  let _ ← read_var_size hashes_size
  let _ ← read_var_size depth_size
  let data0 ← RB.readToVec data_size
  let fixed ← RB.liftRes (fixPadding data0 full_bytes)
  let data := fixed.1
  let bit_len := data.length * 8 - fixed.2
  let references ← RB.readList ref_num (read_var_size size)
  let resolved := resolve_cell_type is_exotic0 data
  pure { data := data, bit_len := bit_len, references := references,
         max_level := max_level, cell_type := resolved.1,
         is_exotic := resolved.2, has_hashes := has_hashes }

def GENERIC_BOC_MAGIC : Nat := 0xb5ee9c72

/-- `RawBagOfCells::parse` up to (but not including) the trailing CRC-32C
read: header, size fields, root list, optional index and the cell records.
Returns the bag together with the `has_crc32c` header flag consulted by the
final step. -/
def rawParseHeaderAndCells : RB (RawBagOfCells × Bool) := do
  let magic ← RB.readBE 4
  if magic ≠ GENERIC_BOC_MAGIC then
    RB.fail (TonCellError.bocDes
      ("Unsupported cell magic number: " ++ toString magic))
  else do
    let header ← RB.readByte
    let has_idx := decide ((header >>> 7) &&& 1 = 1)
    let has_crc32c := decide ((header >>> 6) &&& 1 = 1)
    let _has_cache_bits := decide ((header >>> 5) &&& 1 = 1)
    let size := header &&& 7
    let off_bytes ← RB.readByte
    let cells ← read_var_size size
    let roots ← read_var_size size
    let _absent ← read_var_size size
    let tot_cells_size ← read_var_size off_bytes
    let root_list ← RB.readList roots (read_var_size size)
    let _index ← if has_idx then RB.readList cells (read_var_size off_bytes)
                 else pure []
    let total_bytes_unread ← RB.remainingLen
    if total_bytes_unread < tot_cells_size then
      RB.fail (TonCellError.bocDes "Not enough bytes for cells data")
    else do
      let cell_vec ← RB.readList cells (read_cell size)
      pure ({ cells := cell_vec, roots := root_list }, has_crc32c)

/-- The reader computation of `RawBagOfCells::parse`: after the header and
cells, `reader.read::<u32>(32)?` consumes the 4-byte CRC-32C trailer when
the flag is set, and its value is discarded. -/
def rawParseReader : RB RawBagOfCells := do
  let vb ← rawParseHeaderAndCells
  let _crc32c ← if vb.2 then RB.readBE 4 else pure 0
  pure vb.1

def RawBagOfCells.parse (serial : List Nat) : Res RawBagOfCells :=
  match rawParseReader serial with
  | Res.ok (v, _) => Res.ok v
  | Res.err e => Res.err e
  | Res.crash => Res.crash

/-! ## bit_reader.rs: `BitArrayReader`

The struct holds `array` and a `cursor`; the functions below take them as
explicit arguments.  Rust `Vec` indexing out of bounds panics, which is
`Res.crash` here. -/

namespace BitArrayReader

/-- `get`: the n-th bit, MSB first.  Indexing `array[n / 8]` panics when out
of range. -/
def get (array : List Nat) (n : Nat) : Res Bool :=
  match array.get? (n / 8) with
  | some b => Res.ok (decide (b &&& (1 <<< (7 - n % 8)) > 0))
  | none => Res.crash

/-- The loop of `read_uint`; `k` bits remain to be read at position `i`, and
the bit read at `i` has weight `2^(k-1)`. -/
def read_uint_go (array : List Nat) : Nat → Nat → Nat → Res Nat
  | 0, _, acc => Res.ok acc
  | k + 1, i, acc =>
    match get array i with
    | Res.ok b => read_uint_go array k (i + 1) (if b then acc ||| (1 <<< k) else acc)
    | Res.err e => Res.err e
    | Res.crash => Res.crash

/-- `read_uint`; a zero bit length is a `panic!`. -/
def read_uint (array : List Nat) (start bit_length : Nat) : Res Nat :=
  if bit_length < 1 then Res.crash
  else read_uint_go array bit_length start 0

def read_uint8 (array : List Nat) (start : Nat) : Res Nat :=
  read_uint array start 8

def read_uint16 (array : List Nat) (start : Nat) : Res Nat :=
  read_uint array start 16

/-- Writing one bit of `get_range`'s output: the output vector starts empty
and is never grown, so `array[cursor / 8]` panics as soon as a bit is
written. -/
def setBitInOut (out : List Nat) (cursor : Nat) (b : Bool) : Res (List Nat) :=
  match out.get? (cursor / 8) with
  | some old =>
    Res.ok (out.set (cursor / 8)
      (if b then old ||| (1 <<< (7 - cursor % 8))
       else old &&& (255 ^^^ (1 <<< (7 - cursor % 8)))))
  | none => Res.crash

def get_range_go (array : List Nat) (start : Nat) : Nat → Nat → List Nat → Res (List Nat)
  | 0, _, out => Res.ok out
  | k + 1, cursor, out =>
    match get array (start + cursor) with
    | Res.ok b =>
      match setBitInOut out cursor b with
      | Res.ok out1 => get_range_go array start k (cursor + 1) out1
      | Res.err e => Res.err e
      | Res.crash => Res.crash
    | Res.err e => Res.err e
    | Res.crash => Res.crash

/-- `get_range`: collect `n` bits from `start` into a fresh buffer.  The
buffer is created empty (`vec![]`), so any `n > 0` hits an out-of-bounds
write. -/
def get_range (array : List Nat) (start n : Nat) : Res (List Nat) :=
  get_range_go array start n 0 []

/-- `on` / `off` with `check_range`: positions strictly beyond the bit size
give the `Bit data overflow` error; position `n = len * 8` passes the check
but the write itself indexes out of bounds. -/
def check_write (a : List Nat) (n : Nat) (b : Bool) : Res (List Nat) :=
  if n > a.length * 8 then
    Res.err (TonCellError.cellParserErr "Bit data overflow")
  else
    match a.get? (n / 8) with
    | some old =>
      Res.ok (a.set (n / 8)
        (if b then old ||| (1 <<< (7 - n % 8))
         else old &&& (255 ^^^ (1 <<< (7 - n % 8)))))
    | none => Res.crash

def write_zero_bits : List Nat → Nat → Nat → Res (List Nat)
  | a, _, 0 => Res.ok a
  | a, p, k + 1 =>
    match check_write a p false with
    | Res.ok a1 => write_zero_bits a1 (p + 1) k
    | Res.err e => Res.err e
    | Res.crash => Res.crash

/-- `get_top_upped_array` with `cursor` equal to the cell's bit length:
append a `1` bit and zero-fill to a byte boundary, then truncate. -/
def get_top_upped_array (array : List Nat) (cursor : Nat) : Res (List Nat) :=
  let tu := (cursor + 7) / 8 * 8 - cursor
  let written :=
    if tu > 0 then
      match check_write array cursor true with
      | Res.ok a1 => write_zero_bits a1 (cursor + 1) (tu - 1)
      | Res.err e => Res.err e
      | Res.crash => Res.crash
    else Res.ok array
  match written with
  | Res.ok a2 => Res.ok (a2.take ((cursor + 7) / 8))
  | Res.err e => Res.err e
  | Res.crash => Res.crash

end BitArrayReader

/-! ## cell.rs: the `Cell` type -/

def HASH_BYTES : Nat := 32

def DEPTH_BYTES : Nat := 2

/-- The `Cell` struct.  `Arc` sharing is invisible to structural equality
(Rust `PartialEq` compares pointees), so cells are plain trees here. -/
inductive Cell : Type where
  | mk (data : List Nat) (bit_len : Nat) (references : List Cell)
      (cell_type : Nat) (level_mask : Nat) (is_exotic : Bool)
      (has_hashes : Bool) (proof : Bool) (hashes : List (List Nat))
      (depth : List Nat) : Cell

mutual

/-- Decidable structural equality of cells (Rust derives `PartialEq` /
`Eq` on `Cell`; `Vec<ArcCell>` equality compares the pointed-to cells). -/
def Cell.decEqC : (a b : Cell) → Decidable (a = b)
  | .mk d1 b1 r1 t1 m1 e1 h1 p1 hs1 dp1, .mk d2 b2 r2 t2 m2 e2 h2 p2 hs2 dp2 =>
    match Cell.decEqList r1 r2 with
    | isTrue hr =>
      if h : d1 = d2 ∧ b1 = b2 ∧ t1 = t2 ∧ m1 = m2 ∧ e1 = e2 ∧ h1 = h2 ∧
          p1 = p2 ∧ hs1 = hs2 ∧ dp1 = dp2 then
        isTrue (by
          obtain ⟨h1, h2, h3, h4, h5, h6, h7, h8, h9⟩ := h
          subst hr h1 h2 h3 h4 h5 h6 h7 h8 h9
          rfl)
      else
        isFalse (by
          intro hc
          injection hc
          simp_all)
    | isFalse hr =>
      isFalse (by
        intro hc
        injection hc
        simp_all)
termination_by structural a => a

def Cell.decEqList : (a b : List Cell) → Decidable (a = b)
  | [], [] => isTrue rfl
  | [], _ :: _ => isFalse (by simp)
  | _ :: _, [] => isFalse (by simp)
  | a :: as1, b :: bs =>
    match Cell.decEqC a b with
    | isTrue h1 =>
      match Cell.decEqList as1 bs with
      | isTrue h2 => isTrue (by rw [h1, h2])
      | isFalse h2 =>
        isFalse (by
          intro hc
          injection hc
          simp_all)
    | isFalse h1 =>
      isFalse (by
        intro hc
        injection hc
        simp_all)
termination_by structural a => a

end

instance : DecidableEq Cell := Cell.decEqC

namespace Cell

def data : Cell → List Nat
  | .mk d _ _ _ _ _ _ _ _ _ => d

def bit_len : Cell → Nat
  | .mk _ b _ _ _ _ _ _ _ _ => b

def references : Cell → List Cell
  | .mk _ _ r _ _ _ _ _ _ _ => r

def cell_type : Cell → Nat
  | .mk _ _ _ t _ _ _ _ _ _ => t

def level_mask : Cell → Nat
  | .mk _ _ _ _ m _ _ _ _ _ => m

def is_exotic : Cell → Bool
  | .mk _ _ _ _ _ e _ _ _ _ => e

def has_hashes : Cell → Bool
  | .mk _ _ _ _ _ _ h _ _ _ => h

def proof : Cell → Bool
  | .mk _ _ _ _ _ _ _ p _ _ => p

def hashes : Cell → List (List Nat)
  | .mk _ _ _ _ _ _ _ _ h _ => h

def depth : Cell → List Nat
  | .mk _ _ _ _ _ _ _ _ _ d => d

/-- `Cell::reference`. -/
def reference (c : Cell) (idx : Nat) : Res Cell :=
  match c.references.get? idx with
  | some r => Res.ok r
  | none => Res.err (TonCellError.invalidIndex idx c.references.length)

/-- cell.rs `get_level_from_mask`: the loop returns the iteration index `i`
as soon as the mask has been shifted to zero, so this is the bit length of
the mask capped at 3 (not its popcount). -/
def get_level_from_mask (mask : Nat) : Nat :=
  if mask = 0 then 0
  else if mask >>> 1 = 0 then 1
  else if mask >>> 2 = 0 then 2
  else 3

/-- cell.rs `get_hashes_count_from_mask`: popcount of the low 3 bits plus
one. -/
def get_hashes_count_from_mask (mask : Nat) : Nat :=
  (mask &&& 1) + ((mask >>> 1) &&& 1) + ((mask >>> 2) &&& 1) + 1

def get_level (c : Cell) : Nat :=
  get_level_from_mask (c.level_mask &&& 7)

def get_hashes_count (c : Cell) : Nat :=
  get_hashes_count_from_mask (c.level_mask &&& 7)

def is_level_significant (c : Cell) (level : Nat) : Bool :=
  level == 0 || (c.level_mask >>> (level - 1)) % 2 != 0

def apply_level_mask (c : Cell) (level : Nat) : Nat :=
  c.level_mask &&& ((1 <<< level) - 1)

end Cell

mutual

/-- `Cell::get_level_mask` (the fallible, recursive variant used by
`get_refs_descriptor` and `to_raw`).  The `self.reference(i)?` calls are
written as matches on the reference list so that the recursion is
structural; a missing reference is the same `InvalidIndex` error. -/
def Cell.get_level_mask : Cell → Res Nat
  | .mk _ _ refs ct lm ex _ _ _ _ =>
    if ex = true ∧ ct ≠ CellType.libraryCell then
      if ct = CellType.prunnedBranchCell then Res.ok lm
      else if ct = CellType.merkleProofCell then
        match refs with
        | r :: _ =>
          match Cell.get_level_mask r with
          | Res.ok m => Res.ok (m >>> 1)
          | Res.err e => Res.err e
          | Res.crash => Res.crash
        | [] => Res.err (TonCellError.invalidIndex 0 0)
      else if ct = CellType.merkleUpdateCell then
        match refs with
        | r0 :: rest =>
          match Cell.get_level_mask r0 with
          | Res.ok m0 =>
            match rest with
            | r1 :: _ =>
              match Cell.get_level_mask r1 with
              | Res.ok m1 => Res.ok (m0 ||| (m1 >>> 1))
              | Res.err e => Res.err e
              | Res.crash => Res.crash
            | [] => Res.err (TonCellError.invalidIndex 1 (rest.length + 1))
          | Res.err e => Res.err e
          | Res.crash => Res.crash
        | [] => Res.err (TonCellError.invalidIndex 0 0)
      else Res.err (TonCellError.cellParserErr "Unknown special cell type")
    else Cell.levelMaskFold refs 0
termination_by structural c => c

/-- The `level_mask |= reference.get_level_mask()?` loop of the ordinary
branch. -/
def Cell.levelMaskFold : List Cell → Nat → Res Nat
  | [], acc => Res.ok acc
  | r :: rest, acc =>
    match Cell.get_level_mask r with
    | Res.ok m => Cell.levelMaskFold rest (acc ||| m)
    | Res.err e => Res.err e
    | Res.crash => Res.crash
termination_by structural l => l

end

mutual

/-- `Cell::get_max_depth`. -/
def Cell.get_max_depth : Cell → Nat
  | .mk _ _ refs _ _ _ _ _ _ _ =>
    match refs with
    | [] => 0
    | _ => Cell.maxDepthFold refs 0 + 1
termination_by structural c => c

def Cell.maxDepthFold : List Cell → Nat → Nat
  | [], acc => acc
  | r :: rest, acc =>
    let d := Cell.get_max_depth r
    Cell.maxDepthFold rest (if d > acc then d else acc)
termination_by structural l => l

end

namespace Cell

/-- `Cell::get_hash`: for a pruned branch whose requested hash is not its own
stored hash, the hash is read out of the cell data with
`BitArrayReader::get_range` (which panics); otherwise `hashes[hash_i]` is
returned, panicking when the index is out of bounds. -/
def get_hash (c : Cell) (level : Nat) : Res (List Nat) :=
  let hash_i0 := get_hashes_count_from_mask (c.apply_level_mask level) - 1
  if c.cell_type = CellType.prunnedBranchCell then
    let this_hash_i := c.get_hashes_count - 1
    if hash_i0 ≠ this_hash_i then
      BitArrayReader.get_range c.data (16 + hash_i0 * HASH_BYTES * 8) 256
    else
      match c.hashes.get? 0 with
      | some h => Res.ok h
      | none => Res.crash
  else
    match c.hashes.get? hash_i0 with
    | some h => Res.ok h
    | none => Res.crash

/-- `Cell::get_depth`. -/
def get_depth (c : Cell) (level : Option Nat) : Res Nat :=
  let hash_i0 := get_hashes_count_from_mask (c.apply_level_mask (level.getD 0)) - 1
  if c.cell_type = CellType.prunnedBranchCell then
    let this_hash_i := c.get_hashes_count - 1
    if hash_i0 ≠ this_hash_i then
      BitArrayReader.read_uint16 c.data
        (16 + this_hash_i * HASH_BYTES * 8 + hash_i0 * DEPTH_BYTES * 8)
    else
      match c.depth.get? 0 with
      | some d => Res.ok d
      | none => Res.crash
  else
    match c.depth.get? hash_i0 with
    | some d => Res.ok d
    | none => Res.crash

/-- `Cell::depth_to_array` (both bytes are `as u8` casts). -/
def depth_to_array (d : Nat) : List Nat :=
  [d / 256 % 256, d % 256]

/-- `Cell::get_refs_descriptor`.  The sum is computed in `usize` and cast
`as u8`. -/
def get_refs_descriptor (c : Cell) (lm : Option Nat) : Res Nat :=
  let masked : Res Nat :=
    if c.proof then Res.ok 0
    else match lm with
      | some m => Res.ok m
      | none => c.get_level_mask
  match masked with
  | Res.ok level_mask =>
    Res.ok ((c.references.length + (if c.is_exotic then 1 else 0) * 8 +
      level_mask * 32) % 256)
  | Res.err e => Res.err e
  | Res.crash => Res.crash

/-- `Cell::get_bits_descriptor`: `data.len() as u8 * 2 - (full ? 0 : 1)`,
with `u8` wrapping arithmetic. -/
def get_bits_descriptor (c : Cell) : Nat :=
  let rest_bits := c.bit_len % 8
  let adj := if rest_bits = 0 then 0 else 1
  (c.data.length % 256 * 2 + 256 - adj) % 256

/-- The data segment written by `get_repr` (and `write_raw_cell`): when the
last byte is partial its padding bit is set.  An empty `data` together with a
partial bit length makes `data[data_len - 1]` panic. -/
def reprDataBytes (dt : List Nat) (bl : Nat) : Res (List Nat) :=
  let rest_bits := bl % 8
  if rest_bits = 0 then Res.ok dt
  else
    match dt.get? (dt.length - 1) with
    | some last =>
      Res.ok (dt.take (dt.length - 1) ++ [last ||| (1 <<< (8 - rest_bits - 1))])
    | none => Res.crash

/-- The depth bytes of the children written by `get_repr`
(`get_max_depth / 256 as u8` then `get_max_depth % 256 as u8`). -/
def childDepthBytes (refs : List Cell) : List Nat :=
  refs.flatMap (fun r => [r.get_max_depth / 256 % 256, r.get_max_depth % 256])

end Cell

mutual

/-- `Cell::get_repr`. -/
def Cell.get_repr : Cell → Res (List Nat)
  | .mk dt bl refs ct lm ex hh pf hs dp =>
    let c := Cell.mk dt bl refs ct lm ex hh pf hs dp
    match c.get_refs_descriptor none with
    | Res.ok d1 =>
      match Cell.reprDataBytes dt bl with
      | Res.ok dataBytes =>
        match Cell.childHashBytes refs with
        | Res.ok hashBytes =>
          Res.ok (d1 :: c.get_bits_descriptor :: dataBytes ++
            Cell.childDepthBytes refs ++ hashBytes)
        | Res.err e => Res.err e
        | Res.crash => Res.crash
      | Res.err e => Res.err e
      | Res.crash => Res.crash
    | Res.err e => Res.err e
    | Res.crash => Res.crash
termination_by structural c => c

/-- The `r.cell_hash()` loop of `get_repr`: SHA-256 of each child's
representation, concatenated. -/
def Cell.childHashBytes : List Cell → Res (List Nat)
  | [] => Res.ok []
  | r :: rest =>
    match Cell.get_repr r with
    | Res.ok repr =>
      match Cell.childHashBytes rest with
      | Res.ok hs => Res.ok (sha256 repr ++ hs)
      | Res.err e => Res.err e
      | Res.crash => Res.crash
    | Res.err e => Res.err e
    | Res.crash => Res.crash
termination_by structural l => l

end

/-- `Cell::cell_hash`. -/
def Cell.cell_hash (c : Cell) : Res (List Nat) :=
  match c.get_repr with
  | Res.ok repr => Res.ok (sha256 repr)
  | Res.err e => Res.err e
  | Res.crash => Res.crash

namespace Cell

/-! ### `Cell::finalize` -/

/-- Step 1 of `finalize`: determine the cell type from the exotic flag and
the first data byte. -/
def finalizeType (c : Cell) : Res Nat :=
  if c.is_exotic then
    if c.bit_len < 8 then
      Res.err (TonCellError.bocDes "Not enough data for a special cell")
    else
      match BitArrayReader.read_uint8 c.data 0 with
      | Res.ok t =>
        if t = CellType.ordinaryCell then
          Res.err (TonCellError.bocDes "Special cell has Ordinary type")
        else Res.ok t
      | Res.err e => Res.err e
      | Res.crash => Res.crash
  else Res.ok CellType.ordinaryCell

/-- The per-type validation of `finalize`; returns the updated level mask.
The final catch-all models the `CellType::from_u8(_type).unwrap()` panic on
an unknown exotic type byte. -/
def finalizeChecks (c : Cell) (t : Nat) : Res Nat :=
  if t = CellType.ordinaryCell then
    Res.ok (if c.proof ≠ true then
      c.references.foldl (fun acc k => acc ||| k.level_mask) c.level_mask
    else c.level_mask)
  else if t = CellType.prunnedBranchCell then
    if c.references.length ≠ 0 then
      Res.err (TonCellError.bocDes "PrunnedBranch special cell has a cell reference")
    else if c.data.length < 16 then
      Res.err (TonCellError.bocDes "Not enough data for a PrunnedBranch special cell")
    else
      match BitArrayReader.read_uint8 c.data 8 with
      | Res.ok lm1 =>
        let level := get_level_from_mask (lm1 &&& 7)
        if level > 3 ∨ level = 0 then
          Res.err (TonCellError.bocDes "Prunned Branch has an invalid level")
        else
          let new_level_mask := lm1 &&& ((1 <<< (level - 1)) - 1)
          let hcount := get_hashes_count_from_mask new_level_mask
          if c.data.length * 8 < (2 + hcount * (HASH_BYTES + DEPTH_BYTES)) * 8 then
            Res.err (TonCellError.bocDes "Not enouch data for a PrunnedBranch special cell")
          else Res.ok lm1
      | Res.err e => Res.err e
      | Res.crash => Res.crash
  else if t = CellType.libraryCell then
    if c.data.length * 8 < 8 + HASH_BYTES * 8 then
      Res.err (TonCellError.bocDes "Not enouch data for a Library special cell")
    else Res.ok c.level_mask
  else if t = CellType.merkleProofCell then
    if c.data.length * 8 ≠ 8 + (HASH_BYTES + DEPTH_BYTES) * 8 then
      Res.err (TonCellError.bocDes "Not enouch data for a MerkleProof special cell")
    else if c.references.length ≠ 1 then
      Res.err (TonCellError.bocDes "Wrong references count for a MerkleProof special cell")
    else
      match BitArrayReader.get_range c.data 8 (HASH_BYTES * 8) with
      | Res.ok merkle_hash =>
        match c.references.get? 0 with
        | some r0 =>
          match r0.get_hash 0 with
          | Res.ok child_hash =>
            if merkle_hash ≠ child_hash then
              Res.err (TonCellError.bocDes "Hash mismatch in a MerkleProof special cell")
            else
              match BitArrayReader.read_uint16 c.data (8 + HASH_BYTES * 8) with
              | Res.ok v =>
                match r0.get_depth (some 0) with
                | Res.ok d =>
                  if v ≠ d % 65536 then
                    Res.err (TonCellError.bocDes "Depth mismatch in a MerkleProof special cell")
                  else Res.ok (r0.level_mask >>> 1)
                | Res.err e => Res.err e
                | Res.crash => Res.crash
              | Res.err e => Res.err e
              | Res.crash => Res.crash
          | Res.err e => Res.err e
          | Res.crash => Res.crash
        | none => Res.crash
      | Res.err e => Res.err e
      | Res.crash => Res.crash
  else if t = CellType.merkleUpdateCell then
    if c.data.length * 8 ≠ 8 + (HASH_BYTES + DEPTH_BYTES) * 8 * 2 then
      Res.err (TonCellError.bocDes "Not enouch data for a MerkleUpdate special cell")
    else if c.references.length ≠ 2 then
      Res.err (TonCellError.bocDes "Wrong references count for a MerkleUpdate special cell")
    else
      match BitArrayReader.get_range c.data 8 (HASH_BYTES * 8) with
      | Res.ok merkle_hash_0 =>
        match c.references.get? 0, c.references.get? 1 with
        | some r0, some r1 =>
          match r0.get_hash 0 with
          | Res.ok child_hash_0 =>
            if merkle_hash_0 ≠ child_hash_0 then
              Res.err (TonCellError.bocDes "First hash mismatch in a MerkleUpdate special cell")
            else
              match BitArrayReader.read_uint16 c.data (8 + 16 * HASH_BYTES) with
              | Res.ok v0 =>
                match r0.get_depth (some 0) with
                | Res.ok d0 =>
                  if v0 ≠ d0 % 65536 then
                    Res.err (TonCellError.bocDes "First depth mismatch in a MerkleUpdate special cell")
                  else
                    match BitArrayReader.read_uint16 c.data (8 + 16 * HASH_BYTES + DEPTH_BYTES * 8) with
                    | Res.ok v1 =>
                      match r1.get_depth (some 0) with
                      | Res.ok d1 =>
                        if v1 ≠ d1 % 65536 then
                          Res.err (TonCellError.bocDes "Second depth mismatch in a MerkleUpdate special cell")
                        else Res.ok ((r0.level_mask ||| r1.level_mask) >>> 1)
                      | Res.err e => Res.err e
                      | Res.crash => Res.crash
                    | Res.err e => Res.err e
                    | Res.crash => Res.crash
                | Res.err e => Res.err e
                | Res.crash => Res.crash
              | Res.err e => Res.err e
              | Res.crash => Res.crash
          | Res.err e => Res.err e
          | Res.crash => Res.crash
        | _, _ => Res.crash
      | Res.err e => Res.err e
      | Res.crash => Res.crash
  else Res.crash

/-- The child-depth loop of the hash computation: accumulates the running
maximum and the depth bytes appended to the representation. -/
def childDepthsAcc (isMerkle : Bool) (level_i : Nat) :
    List Cell → Nat → List Nat → Res (Nat × List Nat)
  | [], maxd, bytes => Res.ok (maxd, bytes)
  | r :: rest, maxd, bytes =>
    match r.get_depth (some (if isMerkle then level_i + 1 else level_i)) with
    | Res.ok child_depth =>
      childDepthsAcc isMerkle level_i rest (max maxd child_depth)
        (bytes ++ depth_to_array child_depth)
    | Res.err e => Res.err e
    | Res.crash => Res.crash

/-- The child-hash loop of the hash computation. -/
def childHashesAt (isMerkle : Bool) (level_i : Nat) : List Cell → Res (List Nat)
  | [] => Res.ok []
  | r :: rest =>
    match r.get_hash (if isMerkle then level_i + 1 else level_i) with
    | Res.ok h =>
      match childHashesAt isMerkle level_i rest with
      | Res.ok hs => Res.ok (h ++ hs)
      | Res.err e => Res.err e
      | Res.crash => Res.crash
    | Res.err e => Res.err e
    | Res.crash => Res.crash

/-- One `level_i` iteration of the hash loop of `finalize`.  The state is
`(hash_i, hashes, depth)`. -/
def finalizeStep (c1 : Cell) (t : Nat) (hash_i_offset : Nat)
    (st : Nat × List (List Nat) × List Nat) (level_i : Nat) :
    Res (Nat × List (List Nat) × List Nat) :=
  let hash_i := st.1
  let hashesAcc := st.2.1
  let depthAcc := st.2.2
  if ¬ (c1.is_level_significant level_i) then Res.ok st
  else if hash_i < hash_i_offset then Res.ok (hash_i + 1, hashesAcc, depthAcc)
  else
    let new_level_mask := c1.apply_level_mask level_i
    match c1.get_refs_descriptor (some new_level_mask) with
    | Res.ok d1 =>
      let d2 := c1.get_bits_descriptor
      let reprHead : Res (List Nat) :=
        if hash_i = hash_i_offset then
          if level_i ≠ 0 ∧ t ≠ CellType.prunnedBranchCell then
            Res.err (TonCellError.bocDes "Cannot deserialize cell")
          else
            match BitArrayReader.get_top_upped_array c1.data c1.bit_len with
            | Res.ok tu => Res.ok ([d1, d2] ++ tu)
            | Res.err e => Res.err e
            | Res.crash => Res.crash
        else
          if level_i = 0 ∨ t = CellType.prunnedBranchCell then
            Res.err (TonCellError.bocDes "Cannot deserialize cell")
          else
            match hashesAcc.get? (hash_i - hash_i_offset - 1) with
            | some h => Res.ok ([d1, d2] ++ h)
            | none => Res.crash
      match reprHead with
      | Res.ok repr0 =>
        let dest_i := hash_i - hash_i_offset
        let isMerkle := t = CellType.merkleProofCell ∨ t = CellType.merkleUpdateCell
        match childDepthsAcc isMerkle level_i c1.references 0 [] with
        | Res.ok md =>
          let depthRes : Res Nat :=
            if c1.references.length ≠ 0 then
              if md.1 ≥ 1024 then
                Res.err (TonCellError.bocDes "Depth is too big")
              else Res.ok (md.1 + 1)
            else Res.ok 0
          match depthRes with
          | Res.ok dv =>
            match childHashesAt isMerkle level_i c1.references with
            | Res.ok chBytes =>
              let repr := repr0 ++ md.2 ++ chBytes
              Res.ok (hash_i + 1, hashesAcc.set dest_i (sha256 repr),
                depthAcc.set dest_i (dv % 65536))
            | Res.err e => Res.err e
            | Res.crash => Res.crash
          | Res.err e => Res.err e
          | Res.crash => Res.crash
        | Res.err e => Res.err e
        | Res.crash => Res.crash
      | Res.err e => Res.err e
      | Res.crash => Res.crash
    | Res.err e => Res.err e
    | Res.crash => Res.crash

/-- `Cell::finalize` (returns the finalized cell; the Rust function mutates
`self`). -/
def finalize (c : Cell) : Res Cell :=
  match finalizeType c with
  | Res.ok t =>
    match finalizeChecks c t with
    | Res.ok lm1 =>
      let c1 := Cell.mk c.data c.bit_len c.references t lm1 c.is_exotic
        c.has_hashes c.proof c.hashes c.depth
      let total_hash_count := c1.get_hashes_count
      let hash_count := if t = CellType.prunnedBranchCell then 1 else total_hash_count
      let hash_i_offset := total_hash_count - hash_count
      let level := c1.get_level
      match (List.range (level + 1)).foldlM (finalizeStep c1 t hash_i_offset)
          (0, List.replicate hash_count [], List.replicate hash_count 0) with
      | Res.ok fin =>
        Res.ok (Cell.mk c.data c.bit_len c.references t lm1 c.is_exotic
          c.has_hashes c.proof fin.2.1 fin.2.2)
      | Res.err e => Res.err e
      | Res.crash => Res.crash
    | Res.err e => Res.err e
    | Res.crash => Res.crash
  | Res.err e => Res.err e
  | Res.crash => Res.crash

end Cell

/-! ## bag_of_cells.rs: `BagOfCells` -/

structure BagOfCells where
  roots : List Cell
deriving DecidableEq

namespace BagOfCells

/-- Look up `cells[num_cells - 1 - r]` in the reconstruction loop of
`BagOfCells::parse`.  When `r ≥ num_cells` the `usize` subtraction
overflows (or, wrapping, indexes far out of bounds), a panic either way. -/
def cellAt (acc : List Cell) (num_cells r : Nat) : Res Cell :=
  if r + 1 > num_cells then Res.crash
  else
    match acc.get? (num_cells - 1 - r) with
    | some c => Res.ok c
    | none => Res.crash

/-- The reference-resolution loop of `BagOfCells::parse` for one cell at
index `i`. -/
def buildRefs (num_cells i : Nat) (acc : List Cell) : List Nat → Res (List Cell)
  | [] => Res.ok []
  | r :: rest =>
    if r ≤ i then
      Res.err (TonCellError.bocDes "References to previous cells are not supported")
    else
      match cellAt acc num_cells r with
      | Res.ok c =>
        match buildRefs num_cells i acc rest with
        | Res.ok cs => Res.ok (c :: cs)
        | Res.err e => Res.err e
        | Res.crash => Res.crash
      | Res.err e => Res.err e
      | Res.crash => Res.crash

/-- The `for i in (0..num_cells).rev()` loop of `BagOfCells::parse`:
`k` cells remain, so the current index is `i = k - 1`.  Processed cells are
appended to `acc` (so `acc[num_cells - 1 - j]` is the cell of index `j`). -/
def parseCellsLoop (rawCells : List RawCell) (num_cells : Nat) :
    Nat → List Cell → Res (List Cell)
  | 0, acc => Res.ok acc
  | k + 1, acc =>
    match rawCells.get? k with
    | some raw_cell =>
      match buildRefs num_cells k acc raw_cell.references with
      | Res.ok refs =>
        let cell := Cell.mk raw_cell.data raw_cell.bit_len refs
          raw_cell.cell_type raw_cell.max_level raw_cell.is_exotic
          raw_cell.has_hashes false [] []
        match Cell.finalize cell with
        | Res.ok fc => parseCellsLoop rawCells num_cells k (acc ++ [fc])
        | Res.err e => Res.err e
        | Res.crash => Res.crash
      | Res.err e => Res.err e
      | Res.crash => Res.crash
    | none => Res.crash

/-- The root-resolution loop (`raw.roots.iter().map(...)`). -/
def buildRoots (num_cells : Nat) (acc : List Cell) : List Nat → Res (List Cell)
  | [] => Res.ok []
  | r :: rest =>
    match cellAt acc num_cells r with
    | Res.ok c =>
      match buildRoots num_cells acc rest with
      | Res.ok cs => Res.ok (c :: cs)
      | Res.err e => Res.err e
      | Res.crash => Res.crash
    | Res.err e => Res.err e
    | Res.crash => Res.crash

/-- `BagOfCells::parse`. -/
def parse (serial : List Nat) : Res BagOfCells :=
  match RawBagOfCells.parse serial with
  | Res.ok raw =>
    let num_cells := raw.cells.length
    match parseCellsLoop raw.cells num_cells num_cells [] with
    | Res.ok cells =>
      match buildRoots num_cells cells raw.roots with
      | Res.ok roots => Res.ok { roots := roots }
      | Res.err e => Res.err e
      | Res.crash => Res.crash
    | Res.err e => Res.err e
    | Res.crash => Res.crash
  | Res.err e => Res.err e
  | Res.crash => Res.crash

end BagOfCells

/-! ## raw.rs serialization: `write_raw_cell`, `RawBagOfCells::serialize` -/

/-- One step of the reflected CRC-32C (Castagnoli) bit loop. -/
def crcStep : Nat → Nat → Nat
  | 0, x => x
  | k + 1, x =>
    crcStep k (if x % 2 = 1 then (x >>> 1) ^^^ 0x82F63B78 else x >>> 1)

/-- CRC-32C (`CRC_32_ISCSI`) of a byte list. -/
def crc32c (bytes : List Nat) : Nat :=
  (bytes.foldl (fun crc b => crcStep 8 (crc ^^^ (b % 256))) 0xFFFFFFFF) ^^^ 0xFFFFFFFF

/-- Little-endian byte encoding (`to_le_bytes`). -/
def leBytes : Nat → Nat → List Nat
  | 0, _ => []
  | n + 1, v => v % 256 :: leBytes n (v / 256)

/-- `writer.write(8 * n, v)`: `bitstream_io` rejects a value that does not
fit in the requested width ("excessive value" io error, surfaced as a
serialization error). -/
def writeW (n v : Nat) : Res (List Nat) :=
  if v < 2 ^ (8 * n) then Res.ok (beBytes n v)
  else Res.err (TonCellError.bocSer "excessive value for bits written")

/-- raw.rs `raw_cell_size`. -/
def raw_cell_size (cell : RawCell) (ref_size_bytes : Nat) : Nat :=
  2 + (cell.bit_len + 7) / 8 + cell.references.length * ref_size_bytes

/-- The reference-index loop of `write_raw_cell`. -/
def writeRefsLoop (ref_size_bytes : Nat) : List Nat → Res (List Nat)
  | [] => Res.ok []
  | r :: rest =>
    match writeW ref_size_bytes (r % 4294967296) with
    | Res.ok bs =>
      match writeRefsLoop ref_size_bytes rest with
      | Res.ok more => Res.ok (bs ++ more)
      | Res.err e => Res.err e
      | Res.crash => Res.crash
    | Res.err e => Res.err e
    | Res.crash => Res.crash

/-- raw.rs `write_raw_cell`.  `level` and `is_exotic` are hard-coded to 0
(`// TODO: Support`), and `d2` is an `as u8` cast of a `usize` expression.
Slicing `&data[..data_len_bytes - 1]` and indexing `data[data_len_bytes - 1]`
panic when `data` is shorter than the length derived from `bit_len`. -/
def write_raw_cell (cell : RawCell) (ref_size_bytes : Nat) : Res (List Nat) :=
  let num_refs := cell.references.length
  let d1 := num_refs + 0 * 8 + 0 * 32
  let padding_bits := cell.bit_len % 8
  let full_bytes := padding_bits = 0
  let data_len_bytes := (cell.bit_len + 7) / 8
  let d2 := (data_len_bytes * 2 - (if full_bytes then 0 else 1)) % 256
  match writeW 1 (d1 % 4294967296) with
  | Res.ok b1 =>
    let dataPart : Res (List Nat) :=
      if full_bytes then Res.ok cell.data
      else
        if data_len_bytes - 1 ≤ cell.data.length then
          match cell.data.get? (data_len_bytes - 1) with
          | some last_byte =>
            Res.ok (cell.data.take (data_len_bytes - 1) ++
              [last_byte ||| (1 <<< (8 - padding_bits - 1))])
          | none => Res.crash
        else Res.crash
    match dataPart with
    | Res.ok dataBytes =>
      match writeRefsLoop ref_size_bytes cell.references with
      | Res.ok refBytes => Res.ok (b1 ++ [d2] ++ dataBytes ++ refBytes)
      | Res.err e => Res.err e
      | Res.crash => Res.crash
    | Res.err e => Res.err e
    | Res.crash => Res.crash
  | Res.err e => Res.err e
  | Res.crash => Res.crash

/-- The per-cell serialization loop of `RawBagOfCells::serialize`. -/
def writeCellsLoop (ref_size_bytes : Nat) : List RawCell → Res (List Nat)
  | [] => Res.ok []
  | c :: rest =>
    match write_raw_cell c ref_size_bytes with
    | Res.ok bs =>
      match writeCellsLoop ref_size_bytes rest with
      | Res.ok more => Res.ok (bs ++ more)
      | Res.err e => Res.err e
      | Res.crash => Res.crash
    | Res.err e => Res.err e
    | Res.crash => Res.crash

/-- `RawBagOfCells::serialize`.  `u32` arithmetic wraps modulo `2^32`; the
final header byte packs `[has_idx, has_crc32c, has_cache_bits, flags:2,
ref_size:3]`, all but the crc flag and the size being zero. -/
def RawBagOfCells.serialize (raw : RawBagOfCells) (has_crc32 : Bool) : Res (List Nat) :=
  let root_count := raw.roots.length
  if root_count > 1 then
    Res.err (TonCellError.bocSer ("Single root expected, got " ++ toString root_count))
  else
    let num_ref_bits := bitLength (raw.cells.length % 4294967296)
    let num_ref_bytes := (num_ref_bits + 7) / 8
    let full_size := raw.cells.foldl
      (fun acc c => (acc + raw_cell_size c num_ref_bytes) % 4294967296) 0
    let num_offset_bits := bitLength full_size
    let num_offset_bytes := (num_offset_bits + 7) / 8
    if num_ref_bytes ≥ 8 then
      Res.err (TonCellError.bocSer "excessive value for bits written")
    else
      let header := [0xb5, 0xee, 0x9c, 0x72,
        (if has_crc32 then 64 else 0) + num_ref_bytes]
      match writeW 1 num_offset_bytes with
      | Res.ok offB =>
        match writeW num_ref_bytes (raw.cells.length % 4294967296) with
        | Res.ok cellsB =>
          match writeW num_ref_bytes 1 with
          | Res.ok rootsB =>
            match writeW num_ref_bytes 0 with
            | Res.ok absentB =>
              match writeW num_offset_bytes full_size with
              | Res.ok totB =>
                match writeW num_ref_bytes 0 with
                | Res.ok rootIdxB =>
                  match writeCellsLoop num_ref_bytes raw.cells with
                  | Res.ok cellBytes =>
                    let body := header ++ offB ++ cellsB ++ rootsB ++ absentB ++
                      totB ++ rootIdxB ++ cellBytes
                    if has_crc32 then
                      Res.ok (body ++ leBytes 4 (crc32c body))
                    else Res.ok body
                  | Res.err e => Res.err e
                  | Res.crash => Res.crash
                | Res.err e => Res.err e
                | Res.crash => Res.crash
              | Res.err e => Res.err e
              | Res.crash => Res.crash
            | Res.err e => Res.err e
            | Res.crash => Res.crash
          | Res.err e => Res.err e
          | Res.crash => Res.crash
        | Res.err e => Res.err e
        | Res.crash => Res.crash
      | Res.err e => Res.err e
      | Res.crash => Res.crash

/-! ## bag_of_cells.rs: `traverse_cell_tree`, `to_raw`, `serialize`

`HashSet<ArcCell>` and `HashMap<ArcCell, _>` compare cells structurally;
they are modelled as insertion-ordered lists without duplicate keys, and
`iter().next()` takes the head.  This fixes one admissible iteration order
of the Rust hash containers. -/

/-- The inbound-reference map: cell ↦ set of referencing cells. -/
abbrev InRefs : Type := List (Cell × List Cell)

def inRefsLookup (m : InRefs) (k : Cell) : Option (List Cell) :=
  match m with
  | [] => none
  | (k1, v) :: rest => if k1 = k then some v else inRefsLookup rest k

/-- Replace the value stored under `k` (which must be present). -/
def inRefsReplace (m : InRefs) (k : Cell) (v : List Cell) : InRefs :=
  match m with
  | [] => []
  | (k1, v1) :: rest =>
    if k1 = k then (k1, v) :: rest else (k1, v1) :: inRefsReplace rest k v

def inRefsRemove (m : InRefs) (k : Cell) : InRefs :=
  match m with
  | [] => []
  | (k1, v1) :: rest =>
    if k1 = k then rest else (k1, v1) :: inRefsRemove rest k

/-- `HashSet::insert`. -/
def setInsert (l : List Cell) (x : Cell) : List Cell :=
  if x ∈ l then l else l ++ [x]

mutual

/-- `BagOfCells::traverse_cell_tree`: fills the set of all cells and the
inbound-reference map. -/
def BagOfCells.traverse_cell_tree :
    Cell → List Cell × InRefs → Res (List Cell × InRefs)
  | Cell.mk dt bl refs ct lm ex hh pf hs dp, st =>
    let c := Cell.mk dt bl refs ct lm ex hh pf hs dp
    if c ∈ st.1 then Res.ok st
    else BagOfCells.traverseRefs c refs (st.1 ++ [c], st.2)
termination_by structural c => c

/-- The loop over `cell.references` inside `traverse_cell_tree`; `parent`
is the cell being traversed. -/
def BagOfCells.traverseRefs (parent : Cell) :
    List Cell → List Cell × InRefs → Res (List Cell × InRefs)
  | [], st => Res.ok st
  | r :: rest, st =>
    if r = parent then
      Res.err (TonCellError.bagOfCellsDes "Cell must not reference itself")
    else
      let in_refs1 :=
        match inRefsLookup st.2 r with
        | some refs => inRefsReplace st.2 r (setInsert refs parent)
        | none => st.2 ++ [(r, [parent])]
      match BagOfCells.traverse_cell_tree r (st.1, in_refs1) with
      | Res.ok st1 => BagOfCells.traverseRefs parent rest st1
      | Res.err e => Res.err e
      | Res.crash => Res.crash
termination_by structural l => l

end

namespace BagOfCells

/-- The fold of `traverse_cell_tree` over the roots. -/
def traverseRoots : List Cell → List Cell × InRefs → Res (List Cell × InRefs)
  | [], st => Res.ok st
  | r :: rest, st =>
    match traverse_cell_tree r st with
    | Res.ok st1 => traverseRoots rest st1
    | Res.err e => Res.err e
    | Res.crash => Res.crash

/-- The body of the child loop in the Kahn ordering: decrement the inbound
count of each child of the popped cell, moving freed children into
`no_in_refs`. -/
def kahnChildren (cell : Cell) :
    List Cell → List Cell → InRefs → List Cell × InRefs
  | [], no_in_refs, in_refs => (no_in_refs, in_refs)
  | child :: rest, no_in_refs, in_refs =>
    match inRefsLookup in_refs child with
    | some refs =>
      let refs1 := refs.erase cell
      if refs1 = [] then
        kahnChildren cell rest (setInsert no_in_refs child)
          (inRefsRemove in_refs child)
      else
        kahnChildren cell rest no_in_refs (inRefsReplace in_refs child refs1)
    | none => kahnChildren cell rest no_in_refs in_refs

/-- The `while !no_in_refs.is_empty()` loop of `to_raw`; `fuel` bounds the
iteration count (for a DAG the loop pops each cell at most once, so any
fuel of at least the number of cells suffices; exhausting it models
non-termination as a crash).  The state carries the emitted order and the
`indices` map (`HashMap::insert` replaces). -/
def kahnLoop : Nat → List Cell → InRefs → List Cell → List (Cell × Nat) →
    Res (List Cell × List (Cell × Nat) × InRefs)
  | _, [], in_refs, ordered, indices => Res.ok (ordered, indices, in_refs)
  | 0, _ :: _, _, _, _ => Res.crash
  | fuel + 1, cell :: no_rest, in_refs, ordered, indices =>
    let ordered1 := ordered ++ [cell]
    let indices1 := (indices.filter (fun p => p.1 ≠ cell)) ++ [(cell, indices.length)]
    let st := kahnChildren cell cell.references (cell :: no_rest) in_refs
    kahnLoop fuel (st.1.erase cell) st.2 ordered1 indices1

/-- Index lookup `indices.get(c).unwrap()`: absence is a panic. -/
def indexOfCell (indices : List (Cell × Nat)) (c : Cell) : Res Nat :=
  match indices with
  | [] => Res.crash
  | (k, v) :: rest => if k = c then Res.ok v else indexOfCell rest c

def refsToIndices (indices : List (Cell × Nat)) : List Cell → Res (List Nat)
  | [] => Res.ok []
  | r :: rest =>
    match indexOfCell indices r with
    | Res.ok i =>
      match refsToIndices indices rest with
      | Res.ok more => Res.ok (i :: more)
      | Res.err e => Res.err e
      | Res.crash => Res.crash
    | Res.err e => Res.err e
    | Res.crash => Res.crash

/-- Build the `RawCell` list from the ordered cells. -/
def orderedToRaw (indices : List (Cell × Nat)) : List Cell → Res (List RawCell)
  | [] => Res.ok []
  | c :: rest =>
    match refsToIndices indices c.references with
    | Res.ok refs =>
      match c.get_level_mask with
      | Res.ok lm =>
        match orderedToRaw indices rest with
        | Res.ok more =>
          Res.ok (RawCell.mk c.data c.bit_len refs lm c.cell_type
            c.is_exotic c.has_hashes :: more)
        | Res.err e => Res.err e
        | Res.crash => Res.crash
      | Res.err e => Res.err e
      | Res.crash => Res.crash
    | Res.err e => Res.err e
    | Res.crash => Res.crash

/-- `BagOfCells::to_raw`. -/
def to_raw (boc : BagOfCells) : Res RawBagOfCells :=
  match traverseRoots boc.roots ([], []) with
  | Res.ok st =>
    let all_cells := st.1
    let no_in_refs := all_cells.filter (fun c => (inRefsLookup st.2 c).isNone)
    match kahnLoop (all_cells.length + 1) no_in_refs st.2 [] [] with
    | Res.ok fin =>
      if fin.2.2 ≠ [] then
        Res.err (TonCellError.cellBuilderErr
          "Can't construct topological ordering: cycle detected")
      else
        match orderedToRaw fin.2.1 fin.1 with
        | Res.ok cells =>
          match refsToIndices fin.2.1 boc.roots with
          | Res.ok roots => Res.ok { cells := cells, roots := roots }
          | Res.err e => Res.err e
          | Res.crash => Res.crash
        | Res.err e => Res.err e
        | Res.crash => Res.crash
    | Res.err e => Res.err e
    | Res.crash => Res.crash
  | Res.err e => Res.err e
  | Res.crash => Res.crash

/-- `BagOfCells::serialize`. -/
def serialize (boc : BagOfCells) (has_crc32 : Bool) : Res (List Nat) :=
  match to_raw boc with
  | Res.ok raw => RawBagOfCells.serialize raw has_crc32
  | Res.err e => Res.err e
  | Res.crash => Res.crash

end BagOfCells

/-! ## parser.rs: `CellParser`

The parser's `BitReader` reads MSB-first from the cell's data buffer; its
end-of-input condition is the byte buffer, not `bit_len`. -/

/-- Bit `i` (MSB first) of a byte buffer. -/
def bitAt (data : List Nat) (i : Nat) : Nat :=
  (data.getD (i / 8) 0 >>> (7 - i % 8)) &&& 1

/-- Big-endian value of `count` bits starting at `pos`. -/
def bitsVal (data : List Nat) : Nat → Nat → Nat → Nat
  | _, 0, acc => acc
  | pos, k + 1, acc => bitsVal data (pos + 1) k (acc * 2 + bitAt data pos)

structure CellParser where
  bit_len : Nat
  dataBytes : List Nat
  pos : Nat
deriving DecidableEq, Repr

/-- `Cell::parser`. -/
def Cell.parser (c : Cell) : CellParser :=
  { bit_len := c.bit_len, dataBytes := c.data, pos := 0 }

namespace CellParser

/-- A raw `bit_reader.read` of `n` bits: fails with an io error (mapped to a
`CellParserError`) past the end of the buffer. -/
def loadBits (p : CellParser) (n : Nat) : Res (Nat × CellParser) :=
  if p.pos + n ≤ p.dataBytes.length * 8 then
    Res.ok (bitsVal p.dataBytes p.pos n 0, { p with pos := p.pos + n })
  else Res.err (TonCellError.cellParserErr eofMsg)

def load_bit (p : CellParser) : Res (Bool × CellParser) :=
  match p.loadBits 1 with
  | Res.ok bp => Res.ok (decide (bp.1 = 1), bp.2)
  | Res.err e => Res.err e
  | Res.crash => Res.crash

def load_u8 (p : CellParser) (bit_len : Nat) : Res (Nat × CellParser) :=
  p.loadBits bit_len

def load_u32 (p : CellParser) (bit_len : Nat) : Res (Nat × CellParser) :=
  p.loadBits bit_len

def load_u64 (p : CellParser) (bit_len : Nat) : Res (Nat × CellParser) :=
  p.loadBits bit_len

/-- The `words[i]` loop of `load_uint`: each further 32-bit word extends the
accumulated big-endian value. -/
def loadUintWords : CellParser → Nat → Nat → Res (Nat × CellParser)
  | p, 0, acc => Res.ok (acc, p)
  | p, k + 1, acc =>
    match p.loadBits 32 with
    | Res.ok wp => loadUintWords wp.2 k (acc * 4294967296 + wp.1)
    | Res.err e => Res.err e
    | Res.crash => Res.crash

/-- `load_uint`: a high word of `bit_len % 32` bits (32 when the width is a
multiple of 32) followed by full 32-bit words.  For `bit_len = 0` the code
first reads 32 bits and then panics on `words[num_words - 1]` with
`num_words = 0`. -/
def load_uint (p : CellParser) (bit_len : Nat) : Res (Nat × CellParser) :=
  let num_words := (bit_len + 31) / 32
  let high_word_bits := if bit_len % 32 = 0 then 32 else bit_len % 32
  match p.loadBits high_word_bits with
  | Res.ok hp =>
    if num_words = 0 then Res.crash
    else loadUintWords hp.2 (num_words - 1) hp.1
  | Res.err e => Res.err e
  | Res.crash => Res.crash

/-- `load_uint_le`: scan the low 32 bits of `bit_len` for the highest set
bit. -/
def load_uint_le (p : CellParser) (bit_len : Nat) : Res (Nat × CellParser) :=
  let lastOne := bitLength (bit_len % 4294967296)
  if lastOne = 0 then Res.err (TonCellError.cellParserErr "not a UintLe")
  else p.load_uint lastOne

/-- The `while load_bit` loop of `load_unary_length`, written with the
remaining-bits bound as the structural argument (the loop ends no later
than the reader's end of input). -/
def unaryGo (p : CellParser) : Nat → Nat → Res (Nat × CellParser)
  | 0, _acc =>
    match p.load_bit with
    | Res.ok _ => Res.crash
    | Res.err e => Res.err e
    | Res.crash => Res.crash
  | bound + 1, acc =>
    match p.load_bit with
    | Res.ok bp =>
      if bp.1 then unaryGo bp.2 bound (acc + 1) else Res.ok (acc, bp.2)
    | Res.err e => Res.err e
    | Res.crash => Res.crash

def load_unary_length (p : CellParser) : Res (Nat × CellParser) :=
  unaryGo p (p.dataBytes.length * 8 - p.pos) 0

/-- The bit run of the `11` (same-bit) label form: `n` copies of `v`. -/
def sameBits (v : Bool) : Nat → Nat
  | 0 => 0
  | k + 1 => sameBits v k <<< 1 ||| (if v then 1 else 0)

/-- `load_label`: returns the label value and its bit count. -/
def load_label (p : CellParser) (m : Nat) : Res ((Nat × Nat) × CellParser) :=
  match p.load_bit with
  | Res.ok t1p =>
    if t1p.1 = false then
      match t1p.2.load_unary_length with
      | Res.ok np =>
        if np.1 > 0 then
          match np.2.load_uint np.1 with
          | Res.ok sp => Res.ok ((sp.1, np.1), sp.2)
          | Res.err e => Res.err e
          | Res.crash => Res.crash
        else Res.ok ((0, np.1), np.2)
      | Res.err e => Res.err e
      | Res.crash => Res.crash
    else
      match t1p.2.load_bit with
      | Res.ok t2p =>
        if t2p.1 = false then
          match t2p.2.load_uint_le m with
          | Res.ok np =>
            match np.2.load_uint np.1 with
            | Res.ok sp => Res.ok ((sp.1, np.1), sp.2)
            | Res.err e => Res.err e
            | Res.crash => Res.crash
          | Res.err e => Res.err e
          | Res.crash => Res.crash
        else
          match t2p.2.load_bit with
          | Res.ok vp =>
            match vp.2.load_uint_le m with
            | Res.ok np => Res.ok ((sameBits vp.1 np.1, np.1), np.2)
            | Res.err e => Res.err e
            | Res.crash => Res.crash
          | Res.err e => Res.err e
          | Res.crash => Res.crash
      | Res.err e => Res.err e
      | Res.crash => Res.crash
  | Res.err e => Res.err e
  | Res.crash => Res.crash

/-- The byte-collecting part of `load_bits` (util.rs `read_bits`): full
bytes, then a final partial byte shifted left-aligned. -/
def collectBytes (data : List Nat) : Nat → Nat → List Nat
  | _, 0 => []
  | pos, k + 1 => bitsVal data pos 8 0 :: collectBytes data (pos + 8) k

def load_bits (p : CellParser) (num_bits : Nat) : Res (List Nat × CellParser) :=
  if p.pos + num_bits ≤ p.dataBytes.length * 8 then
    let full_bytes := num_bits / 8
    let rem := num_bits % 8
    let bytes := collectBytes p.dataBytes p.pos full_bytes
    let bytes1 :=
      if rem = 0 then bytes
      else bytes ++ [bitsVal p.dataBytes (p.pos + full_bytes * 8) rem 0 <<< (8 - rem)]
    Res.ok (bytes1, { p with pos := p.pos + num_bits })
  else Res.err (TonCellError.cellParserErr eofMsg)

def load_bytes (p : CellParser) (num_bytes : Nat) : Res (List Nat × CellParser) :=
  p.load_bits (num_bytes * 8)

/-- `load_sig_pub_key`. -/
def load_sig_pub_key (p : CellParser) : Res (List Nat × CellParser) :=
  match p.load_u32 32 with
  | Res.ok mp =>
    if mp.1 ≠ 0x8e81278a then
      Res.err (TonCellError.cellParserErr "Not a SigPubKey")
    else mp.2.load_bits 256
  | Res.err e => Res.err e
  | Res.crash => Res.crash

end CellParser

/-! ## hashmap.rs: the dictionary walker -/

/-- `to_str_radix`: lowercase digit string of `n` in base `b` (no leading
zeros, `"0"` for zero). -/
def natToRadix (b n : Nat) : String :=
  String.mk (Nat.toDigits b n)

/-- `HashMap::insert`: replace the entry of the key, or append. -/
def mapInsert {V : Type} : List (String × V) → String → V → List (String × V)
  | [], k, v => [(k, v)]
  | (k1, v1) :: rest, k, v =>
    if k1 = k then (k, v) :: rest else (k1, v1) :: mapInsert rest k v

/-- The mutable parts of the `Hashmap` struct (`map`, `pruned`, and the key
bit width `n`). -/
structure HashmapSt (V : Type) where
  map : List (String × V)
  pruned : List String
  n : Nat

/-- The leaf decoder `f`: takes the cell, `ref_index`, the parser and the
key, returns the optional value plus the updated index and parser. -/
def LeafF (V : Type) : Type :=
  Cell → Nat → CellParser → Nat → Res (Option V × Nat × CellParser)

/-- `Hashmap::load_hashmap`.  The recursion is guarded by an explicit fuel
(first argument, exhaustion is a crash): the Rust recursion terminates on
every input because each step either descends into a child cell or flips
`fork`, and every theorem below either holds for all fuel values or picks a
sufficient one.  The `n - 1` and `n - label_len` subtractions are `usize`
and panic on underflow. -/
def Hashmap.load_hashmap {V : Type} (f : LeafF V) :
    Nat → Cell → Nat → CellParser → Nat → Nat → Bool → HashmapSt V →
    Res (HashmapSt V × Nat × CellParser)
  | 0, _, _, _, _, _, _, _ => Res.crash
  | fuel + 1, cell, ref_index, parser, n, key, fork, st =>
    if cell.cell_type ≠ CellType.ordinaryCell then
      if cell.cell_type = CellType.prunnedBranchCell then
        Res.ok ({ st with pruned := st.pruned ++ [natToRadix 2 key] },
          ref_index, parser)
      else Res.ok (st, ref_index, parser)
    else if n = 0 ∧ fork then
      match f cell ref_index parser key with
      | Res.ok dp =>
        match dp.1 with
        | some d =>
          Res.ok ({ st with map := mapInsert st.map (natToRadix 16 key) d },
            dp.2.1, dp.2.2)
        | none => Res.ok (st, dp.2.1, dp.2.2)
      | Res.err e => Res.err e
      | Res.crash => Res.crash
    else if fork then
      let left := key <<< 1
      match cell.reference ref_index with
      | Res.ok left_ref =>
        match Hashmap.load_hashmap f fuel left_ref 0 left_ref.parser (n - 1)
            left (!fork) st with
        | Res.ok st1 =>
          let ref_index1 := ref_index + 1
          let right := left + 1
          match cell.reference ref_index1 with
          | Res.ok right_ref =>
            match Hashmap.load_hashmap f fuel right_ref 0 right_ref.parser
                (n - 1) right (!fork) st1.1 with
            | Res.ok st2 => Res.ok (st2.1, ref_index1 + 1, parser)
            | Res.err e => Res.err e
            | Res.crash => Res.crash
          | Res.err e => Res.err e
          | Res.crash => Res.crash
        | Res.err e => Res.err e
        | Res.crash => Res.crash
      | Res.err e => Res.err e
      | Res.crash => Res.crash
    else
      match parser.load_label n with
      | Res.ok lp =>
        let label_val := lp.1.1
        let label_len := lp.1.2
        if label_len > 0 then
          let next_key := key <<< label_len ||| label_val
          if label_len > n then Res.crash
          else
            Hashmap.load_hashmap f fuel cell ref_index lp.2 (n - label_len)
              next_key (!fork) st
        else
          Hashmap.load_hashmap f fuel cell ref_index lp.2 n key (!fork) st
      | Res.err e => Res.err e
      | Res.crash => Res.crash

/-- `Hashmap::deserialize`. -/
def Hashmap.deserialize {V : Type} (f : LeafF V) (fuel : Nat) (cell : Cell)
    (ref_index : Nat) (parser : CellParser) (st : HashmapSt V) :
    Res (HashmapSt V × Nat × CellParser) :=
  Hashmap.load_hashmap f fuel cell ref_index parser st.n 0 false st

/-- `Cell::load_maybe_ref` with the callbacks threading a state of type
`T`. -/
def Cell.load_maybe_ref {T : Type} (c : Cell) (ref_index : Nat)
    (parser : CellParser)
    (parseOpt : Option (Cell → Nat → CellParser → Res (T × Nat × CellParser)))
    (parsePrunnedOpt : Option (Cell → Nat → CellParser → Res (T × Nat × CellParser))) :
    Res ((Option T × Option Cell) × Nat × CellParser) :=
  match parser.load_bit with
  | Res.ok bp =>
    if bp.1 = false ∨ parseOpt.isNone then
      Res.ok ((none, none), ref_index, bp.2)
    else
      match c.reference ref_index with
      | Res.ok reference =>
        let ref_index1 := ref_index + 1
        let new_p := reference.parser
        if reference.cell_type ≠ CellType.prunnedBranchCell then
          match parseOpt with
          | some f =>
            match f reference 0 new_p with
            | Res.ok rp => Res.ok ((some rp.1, none), ref_index1, bp.2)
            | Res.err e => Res.err e
            | Res.crash => Res.crash
          | none => Res.crash
        else
          match parsePrunnedOpt with
          | some f2 =>
            match f2 reference 0 new_p with
            | Res.ok rp => Res.ok ((some rp.1, none), ref_index1, bp.2)
            | Res.err e => Res.err e
            | Res.crash => Res.crash
          | none => Res.ok ((none, some reference), ref_index1, bp.2)
      | Res.err e => Res.err e
      | Res.crash => Res.crash
  | Res.err e => Res.err e
  | Res.crash => Res.crash

/-- `Hashmap::deserialize_e`: a `maybe` bit, then the dictionary root in the
first reference.  The pruned-cell callback of the source returns `Ok(())`,
leaving the state unchanged. -/
def Hashmap.deserialize_e {V : Type} (f : LeafF V) (fuel : Nat) (cell : Cell)
    (ref_index : Nat) (parser : CellParser) (st : HashmapSt V) :
    Res (HashmapSt V × Nat × CellParser) :=
  match Cell.load_maybe_ref cell ref_index parser
      (some (fun inner_cell iri ip =>
        Hashmap.load_hashmap f fuel inner_cell iri ip st.n 0 false st))
      (some (fun _ iri ip => Res.ok (st, iri, ip))) with
  | Res.ok rp =>
    match rp.1.1 with
    | some st1 => Res.ok (st1, rp.2.1, rp.2.2)
    | none => Res.ok (st, rp.2.1, rp.2.2)
  | Res.err e => Res.err e
  | Res.crash => Res.crash

/-! ## cell.rs: validator-set readers -/

structure ValidatorDescr where
  vd_type : Nat
  public_key : List Nat
  weight : Nat
  adnl_addr : List Nat
deriving DecidableEq, Repr

/-- `ValidatorDescr::default()`. -/
def ValidatorDescr.default : ValidatorDescr :=
  { vd_type := 0, public_key := [], weight := 0, adnl_addr := [] }

structure Validators where
  v_type : String
  utime_since : Nat
  utime_until : Nat
  total : Nat
  main : Nat
  total_weight : Nat
  list : List (String × ValidatorDescr)
deriving DecidableEq, Repr

/-- `Validators::default()`. -/
def Validators.default : Validators :=
  { v_type := "", utime_since := 0, utime_until := 0, total := 0, main := 0,
    total_weight := 0, list := [] }

/-- `Cell::load_validator_descr`. -/
def Cell.load_validator_descr : LeafF ValidatorDescr :=
  fun _cell ref_index parser _key =>
    match parser.load_u8 8 with
    | Res.ok tp =>
      match tp.2.load_sig_pub_key with
      | Res.ok pkp =>
        match pkp.2.load_u64 64 with
        | Res.ok wp =>
          if tp.1 ≠ 0x53 then
            match wp.2.load_bytes 32 with
            | Res.ok ap =>
              Res.ok (some (ValidatorDescr.mk tp.1 pkp.1 wp.1 ap.1),
                ref_index, ap.2)
            | Res.err e => Res.err e
            | Res.crash => Res.crash
          else
            Res.ok (some (ValidatorDescr.mk tp.1 pkp.1 wp.1 []),
              ref_index, wp.2)
        | Res.err e => Res.err e
        | Res.crash => Res.crash
      | Res.err e => Res.err e
      | Res.crash => Res.crash
    | Res.err e => Res.err e
    | Res.crash => Res.crash

/-- `Cell::load_hash_map`. -/
def Cell.load_hash_map {V : Type} (fuel : Nat) (cell : Cell) (ref_index : Nat)
    (parser : CellParser) (n : Nat) (f : LeafF V) :
    Res (List (String × V) × Nat × CellParser) :=
  match Hashmap.deserialize f fuel cell ref_index parser
      { map := [], pruned := [], n := n } with
  | Res.ok sp => Res.ok (sp.1.map, sp.2.1, sp.2.2)
  | Res.err e => Res.err e
  | Res.crash => Res.crash

/-- `Cell::load_hash_map_e`. -/
def Cell.load_hash_map_e {V : Type} (fuel : Nat) (cell : Cell) (ref_index : Nat)
    (parser : CellParser) (n : Nat) (f : LeafF V) :
    Res (List (String × V) × Nat × CellParser) :=
  match Hashmap.deserialize_e f fuel cell ref_index parser
      { map := [], pruned := [], n := n } with
  | Res.ok sp => Res.ok (sp.1.map, sp.2.1, sp.2.2)
  | Res.err e => Res.err e
  | Res.crash => Res.crash

/-- `Cell::load_validator_set` (the unused `n : &BigUint` parameter is
dropped).  Any tag other than `0x11`/`0x12` falls through to
`Ok(Validators::default())` with only `_type` consumed. -/
def Cell.load_validator_set (fuel : Nat) (cell : Cell) (ref_index : Nat)
    (parser : CellParser) : Res (Validators × Nat × CellParser) :=
  match parser.load_u8 8 with
  | Res.ok tp =>
    if tp.1 = 0x11 then
      match tp.2.load_u32 32 with
      | Res.ok usp =>
        match usp.2.load_u32 32 with
        | Res.ok uup =>
          match uup.2.load_uint 16 with
          | Res.ok totp =>
            match totp.2.load_uint 16 with
            | Res.ok mainp =>
              if totp.1 < mainp.1 then
                Res.err (TonCellError.cellParserErr "data.total < data.main")
              else if mainp.1 < 1 then
                Res.err (TonCellError.cellParserErr "data.main < 1")
              else
                match Cell.load_hash_map fuel cell ref_index mainp.2 16
                    Cell.load_validator_descr with
                | Res.ok lp =>
                  Res.ok (Validators.mk "" usp.1 uup.1 totp.1 mainp.1 0 lp.1,
                    lp.2.1, lp.2.2)
                | Res.err e => Res.err e
                | Res.crash => Res.crash
            | Res.err e => Res.err e
            | Res.crash => Res.crash
          | Res.err e => Res.err e
          | Res.crash => Res.crash
        | Res.err e => Res.err e
        | Res.crash => Res.crash
      | Res.err e => Res.err e
      | Res.crash => Res.crash
    else if tp.1 = 0x12 then
      match tp.2.load_u32 32 with
      | Res.ok usp =>
        match usp.2.load_u32 32 with
        | Res.ok uup =>
          match uup.2.load_uint 16 with
          | Res.ok totp =>
            match totp.2.load_uint 16 with
            | Res.ok mainp =>
              if totp.1 < mainp.1 then
                Res.err (TonCellError.cellParserErr "data.total < data.main")
              else if mainp.1 < 1 then
                Res.err (TonCellError.cellParserErr "data.main < 1")
              else
                match mainp.2.load_u64 64 with
                | Res.ok twp =>
                  match Cell.load_hash_map_e fuel cell ref_index twp.2 16
                      Cell.load_validator_descr with
                  | Res.ok lp =>
                    Res.ok (Validators.mk "ext" usp.1 uup.1 totp.1 mainp.1
                      twp.1 lp.1, lp.2.1, lp.2.2)
                  | Res.err e => Res.err e
                  | Res.crash => Res.crash
                | Res.err e => Res.err e
                | Res.crash => Res.crash
            | Res.err e => Res.err e
            | Res.crash => Res.crash
          | Res.err e => Res.err e
          | Res.crash => Res.crash
        | Res.err e => Res.err e
        | Res.crash => Res.crash
      | Res.err e => Res.err e
      | Res.crash => Res.crash
    else Res.ok (Validators.default, ref_index, tp.2)
  | Res.err e => Res.err e
  | Res.crash => Res.crash

/-! ## Concrete cells and inputs used by the claim theorems -/

/-- A pruned-branch cell before finalization: type byte 1, level-mask byte 1,
one 32-byte hash and one 2-byte depth, all zero. -/
def prunedInput : Cell :=
  Cell.mk (1 :: 1 :: List.replicate 34 0) 288 [] 1 1 true false false [] []

/-- The same pruned-branch cell as `finalize` returns it: its single own
hash is the SHA-256 of `d1 = 0x28`, `d2 = 0x48` and the data. -/
def prunedFinalized : Cell :=
  Cell.mk (1 :: 1 :: List.replicate 34 0) 288 [] 1 1 true false false
    [sha256 (40 :: 72 :: 1 :: 1 :: List.replicate 34 0)] [0]

/-- Data bytes of a concrete `ValSet` (`0x11`) cell: tag `0x11`,
`utime_since = utime_until = 0`, `total = main = 1`, then a hashmap with a
single validator entry (63 bytes, 498 bits). -/
def c9data : List Nat :=
  [17, 0, 0, 0, 0, 0, 0, 0, 0, 0, 1, 0, 1, 127, 255, 128, 0, 20, 227, 160,
   73, 226, 128, 0] ++ List.replicate 39 0

/-- An ordinary cell carrying `c9data`. -/
def c9cell : Cell := Cell.mk c9data 498 [] 255 0 false false false [] []

/-- A 17-byte BoC whose raw cell 0 references itself (reference index 0)
and whose raw cell 1 is a truncated pruned-branch cell. -/
def c7bad : List Nat :=
  [0xb5, 0xee, 0x9c, 0x72, 0x01, 0x01, 0x02, 0x01, 0x00, 0x06, 0x00,
   0x01, 0x00, 0x00, 0x08, 0x02, 0x01]

/-- The canonical serialization (no CRC) of the bag with one empty
ordinary cell. -/
def c7ok : List Nat :=
  [0xb5, 0xee, 0x9c, 0x72, 0x01, 0x01, 0x01, 0x01, 0x00, 0x02, 0x00,
   0x00, 0x00]

/-- A crc-flagged 14-byte buffer whose cell data reaches into the final
4 bytes; its last data byte is zero. -/
def c10a : List Nat :=
  [0xb5, 0xee, 0x9c, 0x72, 0x41, 0x01, 0x01, 0x01, 0x00, 0x03, 0x00,
   0x00, 0x01, 0x00]

/-- Like `c10a` but with final byte `0x80`. -/
def c10b : List Nat :=
  [0xb5, 0xee, 0x9c, 0x72, 0x41, 0x01, 0x01, 0x01, 0x00, 0x03, 0x00,
   0x00, 0x01, 0x80]

/-- The single-empty-cell bag with the crc header bit set, without its
4-byte trailer. -/
def c10okbytes : List Nat :=
  [0xb5, 0xee, 0x9c, 0x72, 0x41, 0x01, 0x01, 0x01, 0x00, 0x02, 0x00,
   0x00, 0x00]

/-- The serialization (no CRC) of the bag holding the finalized
pruned-branch cell, as the code produces it. -/
def c2bytes : List Nat :=
  [181, 238, 156, 114, 1, 1, 1, 1, 0, 38, 0, 0, 72, 1, 1] ++
    List.replicate 34 0

end Ton

/-! # Theorems -/

namespace Ton

@[simp] theorem Res.bind_ok {α β : Type} (a : α) (f : α → Res β) :
    Res.bind (Res.ok a) f = f a := rfl

@[simp] theorem Res.bind_err {α β : Type} (e : TonCellError) (f : α → Res β) :
    Res.bind (Res.err e) f = Res.err e := rfl

@[simp] theorem Res.bind_crash {α β : Type} (f : α → Res β) :
    Res.bind Res.crash f = Res.crash := rfl

@[simp] theorem Res.monad_bind_eq {α β : Type} (m : Res α) (f : α → Res β) :
    m >>= f = Res.bind m f := rfl

@[simp] theorem Res.pure_eq {α : Type} (a : α) : (pure a : Res α) = Res.ok a := rfl

@[simp] theorem beBytes_length (n v : Nat) : (beBytes n v).length = n := by
  induction n generalizing v with
  | zero => rfl
  | succ k ih => simp [beBytes, ih]

/-- `get_range` always panics when asked for at least one bit: the output
buffer is allocated empty and the first bit write indexes it out of
bounds. -/
theorem BitArrayReader.get_range_pos_crash (a : List Nat) (s n : Nat)
    (hn : 0 < n) : BitArrayReader.get_range a s n = Res.crash := by
  obtain ⟨k, rfl⟩ : ∃ k, n = k + 1 := ⟨n - 1, by omega⟩
  unfold BitArrayReader.get_range BitArrayReader.get_range_go
  cases h : BitArrayReader.get a (s + 0) with
  | ok b => simp [BitArrayReader.setBitInOut]
  | err e =>
    exfalso
    unfold BitArrayReader.get at h
    split at h <;> simp_all
  | crash => simp

/-! ## C3 -/

/-- C3, counterexample: the claim states
`Cell::get_level_from_mask(m) = popcount(m)` with `2 ↦ 1`, but the code
returns the bit length of the mask, which is `2` at `m = 2`. -/
theorem claim_c3_counterexample : ¬ (Cell.get_level_from_mask 2 = 1) := by
  decide

/-- C3, amended: for every 3-bit mask the level computed by
`Cell::get_level_from_mask` is the bit length of the mask (the position of
its highest set bit: 0→0, 1→1, 2→2, 3→2, 4..7→3), not its popcount, while
the hash count of `Cell::get_hashes_count_from_mask` is popcount + 1 as the
spec states (popcount written as an explicit table). -/
theorem claim_c3 (m : Nat) (h : m < 8) :
    Cell.get_level_from_mask m = [0, 1, 2, 2, 3, 3, 3, 3].getD m 0 ∧
    Cell.get_hashes_count_from_mask m = [0, 1, 1, 2, 1, 2, 2, 3].getD m 0 + 1 := by
  interval_cases m <;> exact ⟨by decide, by decide⟩

/-- C3, witness at `m = 2`. -/
theorem claim_c3_witness :
    2 < 8 ∧ (Cell.get_level_from_mask 2 = [0, 1, 2, 2, 3, 3, 3, 3].getD 2 0 ∧
      Cell.get_hashes_count_from_mask 2 = [0, 1, 1, 2, 1, 2, 2, 3].getD 2 0 + 1) :=
  ⟨by decide, claim_c3 2 (by decide)⟩

/-! ## C4 -/

/-- C4, confirmed: the empty ordinary cell has representation `00 00`, and
its level-0 hash — as returned by `cell_hash` and as stored in `hashes[0]`
by `finalize` — is
SHA-256(00 00) = 96A296D224F285C67BEE93C30F8A309157F0DAA35DC5B87E410B78630A09CFC7. -/
theorem claim_c4 :
    Cell.get_repr (Cell.mk [] 0 [] 255 0 false false false [] []) =
      Res.ok [0, 0] ∧
    Cell.cell_hash (Cell.mk [] 0 [] 255 0 false false false [] []) =
      Res.ok [0x96, 0xA2, 0x96, 0xD2, 0x24, 0xF2, 0x85, 0xC6, 0x7B, 0xEE,
        0x93, 0xC3, 0x0F, 0x8A, 0x30, 0x91, 0x57, 0xF0, 0xDA, 0xA3, 0x5D,
        0xC5, 0xB8, 0x7E, 0x41, 0x0B, 0x78, 0x63, 0x0A, 0x09, 0xCF, 0xC7] ∧
    Cell.finalize (Cell.mk [] 0 [] 255 0 false false false [] []) =
      Res.ok (Cell.mk [] 0 [] 255 0 false false false
        [[0x96, 0xA2, 0x96, 0xD2, 0x24, 0xF2, 0x85, 0xC6, 0x7B, 0xEE,
          0x93, 0xC3, 0x0F, 0x8A, 0x30, 0x91, 0x57, 0xF0, 0xDA, 0xA3, 0x5D,
          0xC5, 0xB8, 0x7E, 0x41, 0x0B, 0x78, 0x63, 0x0A, 0x09, 0xCF, 0xC7]]
        [0]) := by
  exact ⟨by decide, by decide, by decide⟩

/-! ## C1 -/

/-- C1, code bug: the parsing core does panic on malformed input.  The
14-byte input below is a structurally valid BoC envelope with one cell
whose single reference index is 2; `BagOfCells::parse` only rejects
`r <= i`, so `cells[num_cells - 1 - r]` underflows/indexes out of bounds —
a panic (`Res.crash`), not an `Err`. -/
theorem claim_c1 :
    BagOfCells.parse [0xb5, 0xee, 0x9c, 0x72, 0x01, 0x01, 0x01, 0x01, 0x00,
      0x03, 0x00, 0x01, 0x00, 0x02] = Res.crash := by
  decide

/-! ## C5 -/

/-- C5, code bug: `finalize` panics on every well-shaped Merkle-proof cell
before it can compare the stored hash and depth with the child's: the
`MerkleProofCell` branch calls `BitArrayReader::get_range(8, 256)`, which
writes into an empty output buffer and dies on the first bit.  So no
Merkle-proof cell is ever accepted, and mismatches are never reported as
`BocDeserializationError`. -/
theorem claim_c5 (c : Cell) (hex : c.is_exotic = true) (hbl : 8 ≤ c.bit_len)
    (hdl : c.data.length = 35) (hd0 : c.data.get? 0 = some 3)
    (hrl : c.references.length = 1) :
    Cell.finalize c = Res.crash := by
  obtain ⟨tl, htl⟩ : ∃ tl, c.data = 3 :: tl := by
    cases hd : c.data with
    | nil => simp [hd] at hd0
    | cons b tl =>
      rw [hd] at hd0
      simp at hd0
      exact ⟨tl, by rw [hd0]⟩
  have htype : Cell.finalizeType c = Res.ok 3 := by
    unfold Cell.finalizeType
    rw [hex]
    simp only [if_true]
    rw [if_neg (by omega)]
    have : BitArrayReader.read_uint8 c.data 0 = Res.ok 3 := by
      rw [htl]
      rfl
    rw [this]
    rfl
  have hchecks : Cell.finalizeChecks c 3 = Res.crash := by
    unfold Cell.finalizeChecks
    have h35 : ¬ (c.data.length * 8 ≠ 8 + (HASH_BYTES + DEPTH_BYTES) * 8) := by
      rw [hdl]
      decide
    rw [if_neg (by decide), if_neg (by decide), if_neg (by decide),
      if_pos (by rfl), if_neg h35, if_neg (by omega),
      BitArrayReader.get_range_pos_crash c.data 8 (HASH_BYTES * 8) (by decide)]
  unfold Cell.finalize
  rw [htype]
  simp only [hchecks]

/-- C5, witness: a Merkle-proof cell with type byte 3, 35 data bytes and one
(empty ordinary) child makes `finalize` panic. -/
theorem claim_c5_witness :
    (Cell.mk (3 :: List.replicate 34 0) 280
        [Cell.mk [] 0 [] 255 0 false false false [] []]
        3 0 true false false [] []).is_exotic = true ∧
    Cell.finalize (Cell.mk (3 :: List.replicate 34 0) 280
        [Cell.mk [] 0 [] 255 0 false false false [] []]
        3 0 true false false [] []) = Res.crash :=
  ⟨by decide,
   claim_c5 _ (by decide) (by decide) (by decide) (by decide) (by decide)⟩

/-! ## Byte-reader evaluation lemmas -/

@[simp] theorem RB.monadBind_eq {α β : Type} (m : RB α) (f : α → RB β) :
    m >>= f = RB.bindRB m f := rfl

@[simp] theorem RB.bindRB_apply {α β : Type} (m : RB α) (f : α → RB β)
    (s : List Nat) :
    RB.bindRB m f s =
      (match m s with
       | Res.ok (a, s1) => f a s1
       | Res.err e => Res.err e
       | Res.crash => Res.crash) := rfl

@[simp] theorem RB.pure_apply {α : Type} (a : α) (s : List Nat) :
    (pure a : RB α) s = Res.ok (a, s) := rfl

@[simp] theorem RB.readByte_cons (b : Nat) (r : List Nat) :
    RB.readByte (b :: r) = Res.ok (b, r) := rfl

@[simp] theorem RB.readByte_nil :
    RB.readByte [] = Res.err (TonCellError.bocDes eofMsg) := rfl

theorem RB.readToVec_append (l r : List Nat) :
    RB.readToVec l.length (l ++ r) = Res.ok (l, r) := by
  induction l with
  | nil => rfl
  | cons b tail ih =>
    simp [RB.readToVec, ih]

theorem RB.readBE_append (l r : List Nat) :
    RB.readBE l.length (l ++ r) =
      Res.ok (l.foldl (fun acc b => (acc <<< 8) ||| b) 0, r) := by
  simp [RB.readBE, RB.readToVec_append]

theorem RB.readToVec_split (n : Nat) (s : List Nat) (h : n ≤ s.length) :
    RB.readToVec n s = Res.ok (s.take n, s.drop n) := by
  have := RB.readToVec_append (s.take n) (s.drop n)
  rw [List.take_append_drop] at this
  rw [List.length_take, min_eq_left h] at this
  exact this

theorem RB.readBE_split (n : Nat) (s : List Nat) (h : n ≤ s.length) :
    RB.readBE n s =
      Res.ok ((s.take n).foldl (fun acc b => (acc <<< 8) ||| b) 0, s.drop n) := by
  simp [RB.readBE, RB.readToVec_split n s h]

/-- Reading `k` var-size integers of `size` bytes each succeeds whenever
enough input remains, consuming exactly `k * size` bytes. -/
theorem RB.readList_var_size (k size : Nat) (s : List Nat)
    (h : k * size ≤ s.length) :
    ∃ vs, RB.readList k (read_var_size size) s =
      Res.ok (vs, s.drop (k * size)) := by
  induction k generalizing s with
  | zero =>
    refine ⟨[], ?_⟩
    simp [RB.readList]
  | succ j ih =>
    have hs : size ≤ s.length := by
      calc size ≤ (j + 1) * size := by nlinarith
        _ ≤ s.length := h
    have hrec : j * size ≤ (s.drop size).length := by
      rw [List.length_drop]
      have : (j + 1) * size = j * size + size := by ring
      omega
    obtain ⟨vs, hvs⟩ := ih (s.drop size) hrec
    refine ⟨(s.take size).foldl (fun acc b => (acc <<< 8) ||| b) 0 :: vs, ?_⟩
    simp only [RB.readList, RB.monadBind_eq, RB.bindRB_apply, read_var_size] at hvs ⊢
    rw [RB.readBE_split size s hs]
    simp only [hvs, RB.pure_apply, List.drop_drop, Res.ok.injEq, Prod.mk.injEq,
      List.cons.injEq, true_and]
    congr 1
    ring

@[simp] theorem trailingZeros8_zero : trailingZeros8 0 = 8 := rfl

set_option maxHeartbeats 2000000 in
/-- The lowest set bit of `x * 2^(t+1) + 2^t` (a byte whose low `t` bits are
zero and whose bit `t` is one) is at position `t`. -/
theorem trailingZeros8_spec (t x : Nat) (ht : t < 8) :
    trailingZeros8 (x * 2 ^ (t + 1) + 2 ^ t) = t := by
  obtain rfl | rfl | rfl | rfl | rfl | rfl | rfl | rfl :
      t = 0 ∨ t = 1 ∨ t = 2 ∨ t = 3 ∨ t = 4 ∨ t = 5 ∨ t = 6 ∨ t = 7 := by omega
  all_goals (rw [trailingZeros8]; split_ifs <;> omega)

/-- Clearing bit `t` of such a byte with the 8-bit complement mask leaves
`x * 2^(t+1)`. -/
theorem clear_lowest_bit (t x : Nat) (ht : t < 8)
    (hb : x * 2 ^ (t + 1) + 2 ^ t < 256) :
    (x * 2 ^ (t + 1) + 2 ^ t) &&& (255 ^^^ (1 <<< t)) = x * 2 ^ (t + 1) := by
  interval_cases t <;>
    (first
      | (have hx : x < 128 := by omega
         interval_cases x <;> decide)
      | (have hx : x < 64 := by omega
         interval_cases x <;> decide)
      | (have hx : x < 32 := by omega
         interval_cases x <;> decide)
      | (have hx : x < 16 := by omega
         interval_cases x <;> decide)
      | (have hx : x < 8 := by omega
         interval_cases x <;> decide)
      | (have hx : x < 4 := by omega
         interval_cases x <;> decide)
      | (have hx : x < 2 := by omega
         interval_cases x <;> decide)
      | (have hx : x < 1 := by omega
         interval_cases x <;> decide))

/-! ## C8 -/

/-- C8, confirmed: whenever the dictionary walker reaches a pruned-branch
cell it pushes the binary rendering of the accumulated key prefix onto
`pruned` and returns `Ok` at once — same parser position, same `ref_index`,
and an unchanged map (so map entries only ever come from non-pruned
cells). -/
theorem claim_c8 {V : Type} (f : LeafF V) (fuel : Nat) (cell : Cell)
    (ref_index : Nat) (parser : CellParser) (n key : Nat) (fork : Bool)
    (st : HashmapSt V)
    (h : cell.cell_type = CellType.prunnedBranchCell) :
    Hashmap.load_hashmap f (fuel + 1) cell ref_index parser n key fork st =
      Res.ok ({ st with pruned := st.pruned ++ [natToRadix 2 key] },
        ref_index, parser) ∧
    ({ st with pruned := st.pruned ++ [natToRadix 2 key] } : HashmapSt V).map
      = st.map := by
  constructor
  · unfold Hashmap.load_hashmap
    rw [h]
    simp [CellType.prunnedBranchCell, CellType.ordinaryCell]
  · rfl

/-- C8, witness: a concrete pruned-branch cell, fuel 1, key 5. -/
theorem claim_c8_witness :
    (Cell.mk (1 :: 1 :: List.replicate 34 0) 288 [] 1 1 true false false
      [] []).cell_type = CellType.prunnedBranchCell ∧
    (Hashmap.load_hashmap (fun _ i p _ => Res.ok ((none : Option Nat), i, p))
        1 (Cell.mk (1 :: 1 :: List.replicate 34 0) 288 [] 1 1 true false
          false [] [])
        0 (CellParser.mk 288 (1 :: 1 :: List.replicate 34 0) 0) 16 5 false
        { map := [], pruned := [], n := 16 } =
      Res.ok ({ map := [], pruned := [natToRadix 2 5], n := 16 }, 0,
        CellParser.mk 288 (1 :: 1 :: List.replicate 34 0) 0) ∧
    ({ map := ([] : List (String × Nat)), pruned := [natToRadix 2 5], n := 16 } :
      HashmapSt Nat).map = []) :=
  ⟨by decide,
   claim_c8 (fun _ i p _ => Res.ok ((none : Option Nat), i, p)) 0 _ 0
     (CellParser.mk 288 (1 :: 1 :: List.replicate 34 0) 0) 16 5 false
     { map := [], pruned := [], n := 16 } (by decide)⟩


/-! ## C6 -/

@[simp] theorem read_var_size_zero (s : List Nat) :
    read_var_size 0 s = Res.ok (0, s) := rfl

theorem List.set_append_last (pre : List Nat) (b v : Nat) :
    (pre ++ [b]).set pre.length v = pre ++ [v] := by
  induction pre with
  | nil => rfl
  | cons a t ih => simp [List.set, ih]

theorem getD_append_last (pre : List Nat) (b : Nat) :
    (pre ++ [b]).getD pre.length 0 = b := by
  simp [List.getD, List.getElem?_concat_length]

/-- C6, confirmed: when `d2` marks a partial final byte, `read_cell` strips
the TON padding — the lowest set bit of the final data byte (at position
`t`, so the byte is `x·2^(t+1) + 2^t`) is located and cleared and the bit
length becomes `8·data_len - (t+1)` — and an all-zero partial final byte is
a `BocDeserializationError`.  The record is taken without a hash preamble
(`d1` bit 16 clear) and with enough input left for the reference
indices. -/
theorem claim_c6 (size d1 d2 : Nat) (pre tail : List Nat) (x t : Nat)
    (hh : d1 &&& 16 = 0) (hodd : d2 &&& 1 = 1)
    (hlen : pre.length + 1 = (d2 >>> 1) + (d2 &&& 1))
    (htail : (d1 &&& 7) * size ≤ tail.length)
    (ht : t < 8) (hb : x * 2 ^ (t + 1) + 2 ^ t < 256) :
    read_cell size (d1 :: d2 :: ((pre ++ [0]) ++ tail)) =
      Res.err (TonCellError.bocDes
        "Last byte of binary must not be zero if full_byte flag is not set") ∧
    (∃ refs,
      read_cell size (d1 :: d2 :: ((pre ++ [x * 2 ^ (t + 1) + 2 ^ t]) ++ tail)) =
        Res.ok (RawCell.mk (pre ++ [x * 2 ^ (t + 1)])
          ((pre.length + 1) * 8 - (t + 1)) refs (d1 >>> 5)
          (resolve_cell_type (decide (d1 &&& 8 ≠ 0)) (pre ++ [x * 2 ^ (t + 1)])).1
          (resolve_cell_type (decide (d1 &&& 8 ≠ 0)) (pre ++ [x * 2 ^ (t + 1)])).2
          (decide (d1 &&& 16 ≠ 0)),
          tail.drop ((d1 &&& 7) * size))) := by
  have hhash : decide (d1 &&& 16 ≠ 0) = false := by simp [hh]
  have hfull : decide (d2 &&& 1 = 0) = false := by simp [hodd]
  constructor
  · unfold read_cell
    simp only [RB.monadBind_eq, RB.bindRB_apply, RB.readByte_cons, hhash,
      Bool.false_eq_true, if_false, read_var_size_zero]
    rw [← hlen]
    rw [show pre ++ [0] ++ tail = (pre ++ [0]) ++ tail from rfl,
      show pre.length + 1 = (pre ++ [0]).length by simp]
    rw [RB.readToVec_append (pre ++ [0]) tail]
    simp only [RB.liftRes]
    unfold fixPadding
    rw [hfull]
    simp [getD_append_last]
  · obtain ⟨vs, hvs⟩ := RB.readList_var_size (d1 &&& 7) size tail htail
    refine ⟨vs, ?_⟩
    · unfold read_cell
      simp only [RB.monadBind_eq, RB.bindRB_apply, RB.readByte_cons, hhash,
        Bool.false_eq_true, if_false, read_var_size_zero]
      rw [← hlen]
      rw [show pre.length + 1 = (pre ++ [x * 2 ^ (t + 1) + 2 ^ t]).length by simp]
      rw [RB.readToVec_append (pre ++ [x * 2 ^ (t + 1) + 2 ^ t]) tail]
      simp only [RB.liftRes]
      unfold fixPadding
      rw [hfull]
      simp only [List.length_append, List.length_singleton, Nat.add_sub_cancel,
        getD_append_last]
      rw [if_pos (by simp), if_neg (by rw [trailingZeros8_spec t x ht]; omega)]
      rw [trailingZeros8_spec t x ht, clear_lowest_bit t x ht hb,
        List.set_append_last]
      simp [hvs]

theorem claim_c6_witness :
    read_cell 1 [0, 3, 0xAA, 0] =
      Res.err (TonCellError.bocDes
        "Last byte of binary must not be zero if full_byte flag is not set") ∧
    (∃ refs, read_cell 1 [0, 3, 0xAA, 44] =
      Res.ok (RawCell.mk [0xAA, 40] 13 refs 0 CellType.ordinaryCell false false,
        [])) :=
  claim_c6 1 0 3 [0xAA] [] 5 2 (by decide) (by decide) (by decide) (by decide)
    (by decide) (by decide)

/-! ## C9 -/

theorem CellParser.loadBits_ok (p : CellParser) (n : Nat)
    (h : p.pos + n ≤ p.dataBytes.length * 8) :
    p.loadBits n = Res.ok (bitsVal p.dataBytes p.pos n 0,
      CellParser.mk p.bit_len p.dataBytes (p.pos + n)) := by
  simp [CellParser.loadBits, h]

theorem CellParser.load_uint16_ok (p : CellParser)
    (h : p.pos + 16 ≤ p.dataBytes.length * 8) :
    p.load_uint 16 = Res.ok (bitsVal p.dataBytes p.pos 16 0,
      CellParser.mk p.bit_len p.dataBytes (p.pos + 16)) := by
  unfold CellParser.load_uint
  norm_num
  rw [CellParser.loadBits_ok p 16 h]
  rfl

theorem claim_c9 (fuel : Nat) (cell : Cell) (ref_index : Nat) (p : CellParser)
    (hroom : p.pos + 104 ≤ p.dataBytes.length * 8)
    (htag : bitsVal p.dataBytes p.pos 8 0 = 0x11 ∨
            bitsVal p.dataBytes p.pos 8 0 = 0x12) :
    (bitsVal p.dataBytes (p.pos + 72) 16 0 < bitsVal p.dataBytes (p.pos + 88) 16 0 →
      Cell.load_validator_set fuel cell ref_index p =
        Res.err (TonCellError.cellParserErr "data.total < data.main")) ∧
    (bitsVal p.dataBytes (p.pos + 88) 16 0 < 1 →
      Cell.load_validator_set fuel cell ref_index p =
        Res.err (TonCellError.cellParserErr "data.main < 1")) ∧
    (∀ out, Cell.load_validator_set fuel cell ref_index p = Res.ok out →
      (1 ≤ out.1.main ∧ out.1.main ≤ out.1.total ∧
       out.1.total = bitsVal p.dataBytes (p.pos + 72) 16 0 ∧
       out.1.main = bitsVal p.dataBytes (p.pos + 88) 16 0 ∧
       (bitsVal p.dataBytes p.pos 8 0 = 0x12 →
         out.1.total_weight = bitsVal p.dataBytes (p.pos + 104) 64 0))) := by
  have h8 : p.pos + 8 ≤ p.dataBytes.length * 8 := by omega
  unfold Cell.load_validator_set
  simp only [CellParser.load_u8, CellParser.load_u32, CellParser.load_u64]
  rw [CellParser.loadBits_ok p 8 h8]
  rcases htag with htag | htag
  case inl =>
    rw [htag]
    simp only [reduceIte]
    rw [CellParser.loadBits_ok (CellParser.mk p.bit_len p.dataBytes (p.pos + 8))
      32 (by simp; omega)]
    simp only []
    rw [CellParser.loadBits_ok
      (CellParser.mk p.bit_len p.dataBytes (p.pos + 8 + 32)) 32 (by simp; omega)]
    simp only []
    rw [CellParser.load_uint16_ok
      (CellParser.mk p.bit_len p.dataBytes (p.pos + 8 + 32 + 32)) (by simp; omega)]
    simp only []
    rw [CellParser.load_uint16_ok
      (CellParser.mk p.bit_len p.dataBytes (p.pos + 8 + 32 + 32 + 16)) (by simp; omega)]
    simp only []
    have e72 : p.pos + 8 + 32 + 32 = p.pos + 72 := by omega
    have e88 : p.pos + 8 + 32 + 32 + 16 = p.pos + 88 := by omega
    rw [e72, e88]
    refine ⟨?_, ?_, ?_⟩
    · intro hlt
      rw [if_pos hlt]
    · intro hm
      have hnlt : ¬ (bitsVal p.dataBytes (p.pos + 72) 16 0 <
          bitsVal p.dataBytes (p.pos + 88) 16 0) := by omega
      rw [if_neg hnlt, if_pos hm]
    · intro out hout
      split at hout
      · simp at hout
      · split at hout
        · simp at hout
        · rename_i hc1 hc2
          split at hout
          case h_1 lp heq =>
            simp only [Res.ok.injEq] at hout
            subst hout
            refine ⟨?_, ?_, rfl, rfl, ?_⟩
            · show 1 ≤ bitsVal p.dataBytes (p.pos + 88) 16 0
              omega
            · show bitsVal p.dataBytes (p.pos + 88) 16 0 ≤
                bitsVal p.dataBytes (p.pos + 72) 16 0
              omega
            · intro h12
              exact absurd h12 (by decide)
          case h_2 => simp at hout
          case h_3 => simp at hout
  case inr =>
    rw [htag]
    simp only [reduceIte]
    rw [if_neg (by decide : ¬ ((18:Nat) = 17))]
    rw [CellParser.loadBits_ok (CellParser.mk p.bit_len p.dataBytes (p.pos + 8))
      32 (by simp; omega)]
    simp only []
    rw [CellParser.loadBits_ok
      (CellParser.mk p.bit_len p.dataBytes (p.pos + 8 + 32)) 32 (by simp; omega)]
    simp only []
    rw [CellParser.load_uint16_ok
      (CellParser.mk p.bit_len p.dataBytes (p.pos + 8 + 32 + 32)) (by simp; omega)]
    simp only []
    rw [CellParser.load_uint16_ok
      (CellParser.mk p.bit_len p.dataBytes (p.pos + 8 + 32 + 32 + 16)) (by simp; omega)]
    simp only []
    have e72 : p.pos + 8 + 32 + 32 = p.pos + 72 := by omega
    have e88 : p.pos + 8 + 32 + 32 + 16 = p.pos + 88 := by omega
    rw [e72, e88]
    refine ⟨?_, ?_, ?_⟩
    · intro hlt
      rw [if_pos hlt]
    · intro hm
      have hnlt : ¬ (bitsVal p.dataBytes (p.pos + 72) 16 0 <
          bitsVal p.dataBytes (p.pos + 88) 16 0) := by omega
      rw [if_neg hnlt, if_pos hm]
    · intro out hout
      split at hout
      · simp at hout
      · split at hout
        · simp at hout
        · rename_i hc1 hc2
          split at hout
          case h_1 twp heq =>
            have hwv : twp = (bitsVal p.dataBytes (p.pos + 104) 64 0,
                CellParser.mk p.bit_len p.dataBytes (p.pos + 104 + 64)) := by
              unfold CellParser.loadBits at heq
              split at heq
              · simp only [Res.ok.injEq] at heq
                rw [← heq]
              · simp at heq
            subst hwv
            split at hout
            case h_1 lp heq2 =>
              simp only [Res.ok.injEq] at hout
              subst hout
              refine ⟨?_, ?_, rfl, rfl, fun _ => rfl⟩
              · show 1 ≤ bitsVal p.dataBytes (p.pos + 88) 16 0
                omega
              · show bitsVal p.dataBytes (p.pos + 88) 16 0 ≤
                  bitsVal p.dataBytes (p.pos + 72) 16 0
                omega
            case h_2 => simp at hout
            case h_3 => simp at hout
          case h_2 => simp at hout
          case h_3 => simp at hout

theorem claim_c9_witness :
    104 ≤ c9data.length * 8 ∧ bitsVal c9data 0 8 0 = 0x11 ∧
    ((bitsVal c9data 72 16 0 < bitsVal c9data 88 16 0 →
        Cell.load_validator_set 20 c9cell 0 c9cell.parser =
          Res.err (TonCellError.cellParserErr "data.total < data.main")) ∧
     (bitsVal c9data 88 16 0 < 1 →
        Cell.load_validator_set 20 c9cell 0 c9cell.parser =
          Res.err (TonCellError.cellParserErr "data.main < 1")) ∧
     (∀ out, Cell.load_validator_set 20 c9cell 0 c9cell.parser = Res.ok out →
        (1 ≤ out.1.main ∧ out.1.main ≤ out.1.total ∧
         out.1.total = bitsVal c9data 72 16 0 ∧
         out.1.main = bitsVal c9data 88 16 0 ∧
         (bitsVal c9data 0 8 0 = 0x12 →
           out.1.total_weight = bitsVal c9data 104 64 0)))) :=
  ⟨by decide, by decide,
   claim_c9 20 c9cell 0 c9cell.parser (by decide) (Or.inl (by decide))⟩


/-! ## C7 -/
theorem BagOfCells.buildRefs_forward (num_cells i : Nat) (acc : List Cell) :
    ∀ rs out, BagOfCells.buildRefs num_cells i acc rs = Res.ok out →
      ∀ r ∈ rs, i < r := by
  intro rs
  induction rs with
  | nil => intro out h r hr; simp at hr
  | cons a rest ih =>
    intro out h r hr
    unfold BagOfCells.buildRefs at h
    split at h
    · simp at h
    · rename_i hle
      rcases List.mem_cons.mp hr with rfl | hmem
      · omega
      · split at h
        · split at h
          · rename_i cs hcs
            exact ih cs hcs r hmem
          · simp at h
          · simp at h
        · simp at h
        · simp at h

theorem BagOfCells.parseCellsLoop_forward (rawCells : List RawCell)
    (num_cells : Nat) :
    ∀ k acc out,
      BagOfCells.parseCellsLoop rawCells num_cells k acc = Res.ok out →
      ∀ i, i < k → ∀ rc, rawCells.get? i = some rc →
      ∀ r ∈ rc.references, i < r := by
  intro k
  induction k with
  | zero => intro acc out h i hi; omega
  | succ k ih =>
    intro acc out h i hi rc hrc r hr
    unfold BagOfCells.parseCellsLoop at h
    split at h
    · rename_i raw_cell hraw
      split at h
      · rename_i refs hrefs
        simp only [] at h
        split at h
        · rename_i fc hfc
          rcases Nat.lt_succ_iff_lt_or_eq.mp hi with hlt | rfl
          · exact ih (acc ++ [fc]) out h i hlt rc hrc r hr
          · rw [hraw] at hrc
            injection hrc with hrceq
            subst hrceq
            exact BagOfCells.buildRefs_forward _ _ _ _ _ hrefs r hr
        · simp at h
        · simp at h
      · simp at h
      · simp at h
    · simp at h

/-- C7, amended success direction: any successfully parsed bag of cells has
only forward references — every reference index of the raw cell at index
`i` is strictly greater than `i`. -/
theorem claim_c7 (serial : List Nat) (raw : RawBagOfCells) (boc : BagOfCells)
    (hraw : RawBagOfCells.parse serial = Res.ok raw)
    (hok : BagOfCells.parse serial = Res.ok boc) :
    ∀ i rc, raw.cells.get? i = some rc → ∀ r ∈ rc.references, i < r := by
  unfold BagOfCells.parse at hok
  rw [hraw] at hok
  simp only [] at hok
  split at hok
  · rename_i cells hcells
    intro i rc hrc r hr
    have hi : i < raw.cells.length := by
      by_contra hge
      rw [List.get?_eq_none.mpr (by omega)] at hrc
      exact Option.noConfusion hrc
    exact BagOfCells.parseCellsLoop_forward raw.cells raw.cells.length
      raw.cells.length [] cells hcells i hi rc hrc r hr
  · simp at hok
  · simp at hok

/-- C7, counterexample to the error-message direction: `c7bad` deserializes
to two raw cells where cell 0 references itself (`r = 0 ≤ i = 0`), yet
`parse` reports the finalization failure of cell 1 — not
"References to previous cells are not supported" — because cells are
finalized from the last index downwards and cell 1 fails first. -/
theorem claim_c7_counterexample :
    RawBagOfCells.parse c7bad =
      Res.ok (RawBagOfCells.mk
        [RawCell.mk [] 0 [0] 0 255 false false,
         RawCell.mk [1] 8 [] 0 1 true false] [0]) ∧
    BagOfCells.parse c7bad =
      Res.err (TonCellError.bocDes
        "Not enough data for a PrunnedBranch special cell") := by decide

/-- C7, witness: the canonical single-empty-cell bag parses, and the
theorem yields that all of its (absent) references point forward. -/
theorem claim_c7_witness :
    RawBagOfCells.parse c7ok =
      Res.ok (RawBagOfCells.mk [RawCell.mk [] 0 [] 0 255 false false] [0]) ∧
    BagOfCells.parse c7ok =
      Res.ok (BagOfCells.mk
        [Cell.mk [] 0 [] 255 0 false false false [sha256 [0, 0]] [0]]) ∧
    (∀ i rc,
      (RawBagOfCells.mk [RawCell.mk [] 0 [] 0 255 false false]
        [0]).cells.get? i = some rc → ∀ r ∈ rc.references, i < r) :=
  ⟨by decide, by decide,
   claim_c7 c7ok (RawBagOfCells.mk [RawCell.mk [] 0 [] 0 255 false false] [0])
     (BagOfCells.mk [Cell.mk [] 0 [] 255 0 false false false
       [sha256 [0, 0]] [0]])
     (by decide) (by decide)⟩


/-! ## C10 -/
theorem RB.cp_bind {α β : Type} (m : RB α) (f : α → RB β)
    (hm : RB.ConsumesPrefix m) (hf : ∀ x, RB.ConsumesPrefix (f x)) :
    RB.ConsumesPrefix (RB.bindRB m f) := by
  intro u a r h
  unfold RB.bindRB at h
  split at h
  · rename_i a1 s1 heq
    obtain ⟨p1, hu, hrep1⟩ := hm u a1 s1 heq
    obtain ⟨p2, hs1, hrep2⟩ := hf a1 s1 a r h
    subst hu
    subst hs1
    refine ⟨p1 ++ p2, by simp, ?_⟩
    intro s hs
    unfold RB.bindRB
    rw [List.append_assoc]
    rw [hrep1 (p2 ++ s) (by simp [hs])]
    exact hrep2 s hs
  · simp at h
  · simp at h

theorem RB.cp_pure {α : Type} (a : α) : RB.ConsumesPrefix (pure a : RB α) := by
  intro u b r h
  have h' : Res.ok (a, u) = Res.ok (b, r) := h
  simp only [Res.ok.injEq, Prod.mk.injEq] at h'
  obtain ⟨rfl, rfl⟩ := h'
  exact ⟨[], rfl, fun s _ => rfl⟩

theorem RB.cp_fail {α : Type} (e : TonCellError) :
    RB.ConsumesPrefix (RB.fail e : RB α) := by
  intro u a r h
  simp [RB.fail] at h

theorem RB.cp_readByte : RB.ConsumesPrefix RB.readByte := by
  intro u a r h
  cases u with
  | nil => simp at h
  | cons b t =>
    rw [RB.readByte_cons] at h
    simp only [Res.ok.injEq, Prod.mk.injEq] at h
    obtain ⟨rfl, rfl⟩ := h
    exact ⟨[b], rfl, fun s _ => RB.readByte_cons b s⟩

theorem RB.cp_readToVec (n : Nat) : RB.ConsumesPrefix (RB.readToVec n) := by
  induction n with
  | zero => intro u a r h; exact RB.cp_pure [] u a r h
  | succ k ih =>
    exact RB.cp_bind _ _ RB.cp_readByte (fun b =>
      RB.cp_bind _ _ ih (fun rest => RB.cp_pure (b :: rest)))

theorem RB.cp_readBE (n : Nat) : RB.ConsumesPrefix (RB.readBE n) :=
  RB.cp_bind _ _ (RB.cp_readToVec n) (fun _b => RB.cp_pure _)

theorem RB.cp_liftRes {α : Type} (x : Res α) :
    RB.ConsumesPrefix (RB.liftRes x) := by
  intro u a r h
  unfold RB.liftRes at h
  split at h
  · simp only [Res.ok.injEq, Prod.mk.injEq] at h
    obtain ⟨rfl, rfl⟩ := h
    exact ⟨[], rfl, fun s _ => rfl⟩
  · simp at h
  · simp at h

theorem RB.cp_remainingLen : RB.ConsumesPrefix RB.remainingLen := by
  intro u a r h
  have h' : Res.ok (u.length, u) = Res.ok (a, r) := h
  simp only [Res.ok.injEq, Prod.mk.injEq] at h'
  obtain ⟨rfl, rfl⟩ := h'
  refine ⟨[], rfl, fun s hs => ?_⟩
  show Res.ok (s.length, s) = Res.ok (u.length, s)
  rw [hs]

theorem RB.cp_readList {α : Type} (k : Nat) (m : RB α)
    (hm : RB.ConsumesPrefix m) : RB.ConsumesPrefix (RB.readList k m) := by
  induction k with
  | zero => intro u a r h; exact RB.cp_pure [] u a r h
  | succ j ih =>
    exact RB.cp_bind _ _ hm (fun x =>
      RB.cp_bind _ _ ih (fun rest => RB.cp_pure (x :: rest)))

theorem cp_read_cell (size : Nat) : RB.ConsumesPrefix (read_cell size) :=
  RB.cp_bind _ _ RB.cp_readByte (fun _d1 =>
  RB.cp_bind _ _ RB.cp_readByte (fun _d2 =>
  RB.cp_bind _ _ (RB.cp_readBE _) (fun _h1 =>
  RB.cp_bind _ _ (RB.cp_readBE _) (fun _h2 =>
  RB.cp_bind _ _ (RB.cp_readToVec _) (fun _data0 =>
  RB.cp_bind _ _ (RB.cp_liftRes _) (fun _fixed =>
  RB.cp_bind _ _ (RB.cp_readList _ _ (RB.cp_readBE _)) (fun _refs =>
  RB.cp_pure _)))))))

theorem cp_rawParseHeaderAndCells : RB.ConsumesPrefix rawParseHeaderAndCells := by
  refine RB.cp_bind _ _ (RB.cp_readBE 4) ?_
  intro magic
  by_cases hm : magic ≠ GENERIC_BOC_MAGIC
  · rw [if_pos hm]
    exact RB.cp_fail _
  · rw [if_neg hm]
    refine RB.cp_bind _ _ RB.cp_readByte ?_
    intro header
    refine RB.cp_bind _ _ RB.cp_readByte ?_
    intro off_bytes
    refine RB.cp_bind _ _ (RB.cp_readBE _) ?_
    intro cells
    refine RB.cp_bind _ _ (RB.cp_readBE _) ?_
    intro roots
    refine RB.cp_bind _ _ (RB.cp_readBE _) ?_
    intro abs
    refine RB.cp_bind _ _ (RB.cp_readBE _) ?_
    intro tot_cells_size
    refine RB.cp_bind _ _ (RB.cp_readList _ _ (RB.cp_readBE _)) ?_
    intro root_list
    cases hd : decide ((header >>> 7) &&& 1 = 1)
    · rw [if_neg Bool.false_ne_true]
      refine RB.cp_bind _ _ (RB.cp_pure []) ?_
      intro idx
      refine RB.cp_bind _ _ RB.cp_remainingLen ?_
      intro total_bytes_unread
      by_cases hguard : total_bytes_unread < tot_cells_size
      · rw [if_pos hguard]
        exact RB.cp_fail _
      · rw [if_neg hguard]
        exact RB.cp_bind _ _ (RB.cp_readList _ _ (cp_read_cell _))
          (fun _cv => RB.cp_pure _)
    · rw [if_pos rfl]
      refine RB.cp_bind _ _ (RB.cp_readList _ _ (RB.cp_readBE _)) ?_
      intro idx
      refine RB.cp_bind _ _ RB.cp_remainingLen ?_
      intro total_bytes_unread
      by_cases hguard : total_bytes_unread < tot_cells_size
      · rw [if_pos hguard]
        exact RB.cp_fail _
      · rw [if_neg hguard]
        exact RB.cp_bind _ _ (RB.cp_readList _ _ (cp_read_cell _))
          (fun _cv => RB.cp_pure _)

theorem RB.readByte_ok_inv (u : List Nat) (a : Nat) (r : List Nat)
    (h : RB.readByte u = Res.ok (a, r)) : u = a :: r := by
  cases u with
  | nil => simp at h
  | cons b t =>
    rw [RB.readByte_cons] at h
    simp only [Res.ok.injEq, Prod.mk.injEq] at h
    obtain ⟨rfl, rfl⟩ := h
    rfl

theorem RB.readToVec_ok_inv (n : Nat) :
    ∀ u bs r, RB.readToVec n u = Res.ok (bs, r) →
      u = bs ++ r ∧ bs.length = n := by
  induction n with
  | zero =>
    intro u bs r h
    have h' : Res.ok (([] : List Nat), u) = Res.ok (bs, r) := h
    simp only [Res.ok.injEq, Prod.mk.injEq] at h'
    obtain ⟨rfl, rfl⟩ := h'
    exact ⟨rfl, rfl⟩
  | succ k ih =>
    intro u bs r h
    cases u with
    | nil =>
      simp only [RB.readToVec, RB.monadBind_eq, RB.bindRB_apply,
        RB.readByte_nil] at h
      exact Res.noConfusion h
    | cons b t =>
      simp only [RB.readToVec, RB.monadBind_eq, RB.bindRB_apply,
        RB.readByte_cons] at h
      split at h
      · rename_i rest r1 heq
        obtain ⟨hu, hlen⟩ := ih t rest r1 heq
        simp only [RB.pure_apply, Res.ok.injEq, Prod.mk.injEq] at h
        obtain ⟨rfl, rfl⟩ := h
        subst hu
        exact ⟨rfl, by simp [hlen]⟩
      · simp at h
      · simp at h

theorem RB.readBE_ok_inv (n : Nat) (u : List Nat) (a : Nat) (r : List Nat)
    (h : RB.readBE n u = Res.ok (a, r)) :
    ∃ bs : List Nat, u = bs ++ r ∧ bs.length = n := by
  unfold RB.readBE at h
  simp only [RB.monadBind_eq, RB.bindRB_apply] at h
  split at h
  · rename_i bs r1 heq
    obtain ⟨hu, hlen⟩ := RB.readToVec_ok_inv n u bs r1 heq
    simp only [RB.pure_apply, Res.ok.injEq, Prod.mk.injEq] at h
    obtain ⟨rfl, rfl⟩ := h
    exact ⟨bs, hu, hlen⟩
  · simp at h
  · simp at h

theorem getD_append_len (l l2 : List Nat) (b : Nat) :
    (l ++ b :: l2).getD l.length 0 = b := by
  induction l with
  | nil => rfl
  | cons a t ih => simpa using ih

theorem rawParseHeaderAndCells_flag (u : List Nat) (bag : RawBagOfCells)
    (flag : Bool) (r : List Nat)
    (h : rawParseHeaderAndCells u = Res.ok ((bag, flag), r)) :
    flag = decide ((u.getD 4 0 >>> 6) &&& 1 = 1) := by
  unfold rawParseHeaderAndCells at h
  simp only [RB.monadBind_eq, RB.bindRB_apply] at h
  split at h
  case h_2 => simp at h
  case h_3 => simp at h
  case h_1 magic s1 hmagic =>
    split at h
    · simp [RB.fail] at h
    · simp only [RB.monadBind_eq, RB.bindRB_apply] at h
      split at h
      case h_2 => simp at h
      case h_3 => simp at h
      case h_1 header s2 hheader =>
        have hu4 : u.getD 4 0 = header := by
          obtain ⟨bs, hu, hlen⟩ := RB.readBE_ok_inv 4 u magic s1 hmagic
          have hs1 : s1 = header :: s2 :=
            RB.readByte_ok_inv s1 header s2 hheader
          rw [hu, hs1, ← hlen]
          exact getD_append_len bs s2 header
        split at h
        case h_2 => simp at h
        case h_3 => simp at h
        case h_1 off s3 hoff =>
          split at h
          case h_2 => simp at h
          case h_3 => simp at h
          case h_1 cells s4 hcells =>
            split at h
            case h_2 => simp at h
            case h_3 => simp at h
            case h_1 roots s5 hroots =>
              split at h
              case h_2 => simp at h
              case h_3 => simp at h
              case h_1 ab s6 hab =>
                split at h
                case h_2 => simp at h
                case h_3 => simp at h
                case h_1 tot s7 htot =>
                  split at h
                  case h_2 => simp at h
                  case h_3 => simp at h
                  case h_1 rl s8 hrl =>
                    rw [hu4]
                    split at h
                    all_goals
                      simp only [RB.monadBind_eq, RB.bindRB_apply,
                        RB.pure_apply] at h
                    case isTrue =>
                      split at h
                      case h_2 => simp at h
                      case h_3 => simp at h
                      case h_1 idx s9 hidx =>
                        simp only [RB.remainingLen] at h
                        split at h
                        · simp [RB.fail] at h
                        · simp only [RB.monadBind_eq, RB.bindRB_apply] at h
                          split at h
                          case h_2 => simp at h
                          case h_3 => simp at h
                          case h_1 cv s10 hcv =>
                            simp only [RB.pure_apply, Res.ok.injEq,
                              Prod.mk.injEq] at h
                            exact h.1.2.symm
                    case isFalse =>
                      simp only [RB.remainingLen] at h
                      split at h
                      · simp [RB.fail] at h
                      · simp only [RB.monadBind_eq, RB.bindRB_apply] at h
                        split at h
                        case h_2 => simp at h
                        case h_3 => simp at h
                        case h_1 cv s10 hcv =>
                          simp only [RB.pure_apply, Res.ok.injEq,
                            Prod.mk.injEq] at h
                          exact h.1.2.symm

/-- C10, amended: when the `has_crc32c` header bit is set, a successful
parse is unchanged under replacing the final 4 bytes of the buffer: the
trailer is only ever consumed by the discarded CRC read. -/
theorem claim_c10 (b c c' : List Nat) (v : RawBagOfCells)
    (hc : c.length = 4) (hc' : c'.length = 4)
    (hcrc : ((b ++ c).getD 4 0 >>> 6) &&& 1 = 1)
    (hok : RawBagOfCells.parse (b ++ c) = Res.ok v) :
    RawBagOfCells.parse (b ++ c') = Res.ok v := by
  unfold RawBagOfCells.parse at hok ⊢
  split at hok
  case h_2 => simp at hok
  case h_3 => simp at hok
  case h_1 v0 rest heq =>
    simp only [Res.ok.injEq] at hok
    subst hok
    unfold rawParseReader at heq ⊢
    simp only [RB.monadBind_eq, RB.bindRB_apply] at heq ⊢
    split at heq
    case h_2 => simp at heq
    case h_3 => simp at heq
    case h_1 vb r1 hAC =>
      obtain ⟨bag, flag⟩ := vb
      have hflag : flag = true := by
        rw [rawParseHeaderAndCells_flag _ _ _ _ hAC]
        exact decide_eq_true hcrc
      subst hflag
      rw [if_pos rfl] at heq
      simp only [RB.monadBind_eq, RB.bindRB_apply] at heq
      split at heq
      case h_2 => simp at heq
      case h_3 => simp at heq
      case h_1 w r2 hBE =>
        simp only [RB.pure_apply, Res.ok.injEq, Prod.mk.injEq] at heq
        obtain ⟨rfl, rfl⟩ := heq
        obtain ⟨P, hPu, hrep⟩ := cp_rawParseHeaderAndCells (b ++ c)
          (bag, true) r1 hAC
        obtain ⟨bs, hr1, hbs4⟩ := RB.readBE_ok_inv 4 r1 w r2 hBE
        have hlen1 : P.length + r1.length = b.length + 4 := by
          have hl := congrArg List.length hPu
          simp [hc] at hl
          omega
        have hr1len : r1.length = 4 + r2.length := by
          have hl2 := congrArg List.length hr1
          simp [hbs4] at hl2
          omega
        have hPb : P.length ≤ b.length := by omega
        have hr1c : r1 = b.drop P.length ++ c := by
          have h1 : (b ++ c).drop P.length = r1 := by
            rw [hPu, List.drop_left]
          rw [← h1, List.drop_append_of_le_length hPb]
        have hbc' : b ++ c' = P ++ (b.drop P.length ++ c') := by
          have h1 : (b ++ c).take P.length = P := by
            rw [hPu, List.take_left]
          have h2 : b.take P.length = P := by
            have h3 : (b ++ c).take P.length = b.take P.length :=
              List.take_append_of_le_length hPb
            rw [h3] at h1
            exact h1
          conv_lhs => rw [← List.take_append_drop P.length b]
          rw [h2, List.append_assoc]
        have hrun : rawParseHeaderAndCells (P ++ (b.drop P.length ++ c')) =
            Res.ok ((bag, true), b.drop P.length ++ c') := by
          apply hrep
          have := congrArg List.length hr1c
          simp [hc] at this
          simp [hc', this]
        rw [hbc', hrun]
        simp only []
        rw [if_pos trivial]
        simp only [RB.bindRB_apply]
        rw [RB.readBE_split 4 _ (by simp [hc'])]

/-- C10, counterexample: two crc-flagged 14-byte buffers that agree
except inside the final 4 bytes, yet parse to different errors, because
the malformed header makes the cell data overlap the trailer. -/
theorem claim_c10_counterexample :
    (c10a.take 10 = c10b.take 10 ∧ c10a.length = 14 ∧ c10b.length = 14 ∧
     (c10a.getD 4 0 >>> 6) &&& 1 = 1 ∧ (c10b.getD 4 0 >>> 6) &&& 1 = 1) ∧
    RawBagOfCells.parse c10a =
      Res.err (TonCellError.bocDes
        "Last byte of binary must not be zero if full_byte flag is not set") ∧
    RawBagOfCells.parse c10b = Res.err (TonCellError.bocDes eofMsg) := by
  decide

/-- C10, witness: a well-formed crc-flagged bag parses identically under
two different 4-byte trailers. -/
theorem claim_c10_witness :
    ([1, 2, 3, 4] : List Nat).length = 4 ∧
    ([9, 9, 9, 9] : List Nat).length = 4 ∧
    ((c10okbytes ++ [1, 2, 3, 4]).getD 4 0 >>> 6) &&& 1 = 1 ∧
    RawBagOfCells.parse (c10okbytes ++ [1, 2, 3, 4]) =
      Res.ok (RawBagOfCells.mk [RawCell.mk [] 0 [] 0 255 false false] [0]) ∧
    RawBagOfCells.parse (c10okbytes ++ [9, 9, 9, 9]) =
      Res.ok (RawBagOfCells.mk [RawCell.mk [] 0 [] 0 255 false false] [0]) :=
  ⟨by decide, by decide, by decide, by decide,
   claim_c10 c10okbytes [1, 2, 3, 4] [9, 9, 9, 9]
     (RawBagOfCells.mk [RawCell.mk [] 0 [] 0 255 false false] [0])
     (by decide) (by decide) (by decide) (by decide)⟩


/-! ## C2 -/
theorem finalize_ordinary_shape (data : List Nat) (bl : Nat) (fc : Cell)
    (hfin : Cell.finalize (Cell.mk data bl [] 255 0 false false false [] [])
      = Res.ok fc) :
    ∃ hs dp, fc = Cell.mk data bl [] 255 0 false false false hs dp := by
  have h1 : Cell.finalizeType
      (Cell.mk data bl [] 255 0 false false false [] []) = Res.ok 255 := rfl
  have h2 : Cell.finalizeChecks
      (Cell.mk data bl [] 255 0 false false false [] []) 255 = Res.ok 0 := rfl
  unfold Cell.finalize at hfin
  rw [h1] at hfin
  simp only [] at hfin
  rw [h2] at hfin
  simp only [] at hfin
  split at hfin
  · rename_i fin heq
    simp only [Res.ok.injEq] at hfin
    exact ⟨fin.2.1, fin.2.2, hfin.symm⟩
  · simp at hfin
  · simp at hfin

theorem indexOfCell_head (c : Cell) (v : Nat) (rest : List (Cell × Nat)) :
    BagOfCells.indexOfCell ((c, v) :: rest) c = Res.ok v := by
  unfold BagOfCells.indexOfCell
  rw [if_pos rfl]

theorem to_raw_single (data : List Nat) (bl : Nat) (hs : List (List Nat))
    (dp : List Nat) :
    BagOfCells.to_raw (BagOfCells.mk
      [Cell.mk data bl [] 255 0 false false false hs dp]) =
      Res.ok (RawBagOfCells.mk [RawCell.mk data bl [] 0 255 false false] [0]) := by
  have h1 : BagOfCells.traverseRoots
      [Cell.mk data bl [] 255 0 false false false hs dp] ([], []) =
      Res.ok ([Cell.mk data bl [] 255 0 false false false hs dp], []) := by
    unfold BagOfCells.traverseRoots BagOfCells.traverse_cell_tree
    rw [if_neg (List.not_mem_nil _)]
    rfl
  have h2 : BagOfCells.kahnLoop
      ([Cell.mk data bl [] 255 0 false false false hs dp].length + 1)
      (List.filter (fun c => (inRefsLookup [] c).isNone)
        [Cell.mk data bl [] 255 0 false false false hs dp]) [] [] [] =
      Res.ok ([Cell.mk data bl [] 255 0 false false false hs dp],
        [(Cell.mk data bl [] 255 0 false false false hs dp, 0)], []) := by
    show BagOfCells.kahnLoop 2
      [Cell.mk data bl [] 255 0 false false false hs dp] [] [] [] = _
    unfold BagOfCells.kahnLoop
    simp only [BagOfCells.kahnChildren]
    rw [List.erase_cons_head]
    rfl
  have h3 : BagOfCells.indexOfCell
      [(Cell.mk data bl [] 255 0 false false false hs dp, 0)]
      (Cell.mk data bl [] 255 0 false false false hs dp) = Res.ok 0 :=
    indexOfCell_head _ _ _
  unfold BagOfCells.to_raw
  rw [h1]
  simp only []
  rw [h2]
  simp only []
  unfold BagOfCells.orderedToRaw BagOfCells.refsToIndices
  rw [h3]
  rfl

theorem bitLengthGo_le (fuel : Nat) :
    ∀ k v, v < 2 ^ k → k ≤ fuel → bitLengthGo fuel v ≤ k := by
  induction fuel with
  | zero => intro k v _ _; simp [bitLengthGo]
  | succ j ih =>
    intro k v hv hk
    rw [bitLengthGo]
    by_cases h0 : v = 0
    · simp [h0]
    · rw [if_neg h0]
      have hk1 : 1 ≤ k := by
        by_contra hlt
        have : k = 0 := by omega
        subst this
        simp at hv
        omega
      have hdiv : v / 2 < 2 ^ (k - 1) := by
        have h2 : 2 ^ k = 2 * 2 ^ (k - 1) := by
          conv_lhs => rw [show k = k - 1 + 1 by omega]
          ring
        omega
      have := ih (k - 1) (v / 2) hdiv (by omega)
      omega

theorem bitLength_le8 (v : Nat) (h : v < 256) : bitLength v ≤ 8 :=
  bitLengthGo_le 32 8 v (by omega) (by omega)

theorem bitLength_pos (v : Nat) (hv : 0 < v) : 0 < bitLength v := by
  unfold bitLength bitLengthGo
  rw [if_neg (by omega : ¬ v = 0)]
  omega

theorem get?_getD (l : List Nat) (i : Nat) (h : i < l.length) :
    l.get? i = some (l.getD i 0) := by
  induction l generalizing i with
  | nil => simp at h
  | cons a t ih =>
    cases i with
    | zero => rfl
    | succ j =>
      simp only [List.get?, List.getD, List.length_cons] at h ⊢
      simp only [List.getD] at ih
      exact ih j (by simpa using h)

theorem writeW1_ok (v : Nat) (h : v < 256) :
    writeW 1 v = Res.ok [v] := by
  unfold writeW
  rw [if_pos (by omega : v < 2 ^ (8 * 1))]
  simp [beBytes, Nat.mod_eq_of_lt h]

theorem write_raw_cell_full (data : List Nat) (bl : Nat)
    (hmax : bl ≤ 1016) (hfull : bl % 8 = 0) :
    write_raw_cell (RawCell.mk data bl [] 0 255 false false) 1 =
      Res.ok ([0, (bl + 7) / 8 * 2] ++ data) := by
  unfold write_raw_cell
  simp only [hfull, writeRefsLoop]
  rw [show writeW 1 (([].length + 0 * 8 + 0 * 32) % 4294967296) =
    Res.ok [0] from rfl]
  rw [if_pos trivial, if_pos trivial]
  rw [Nat.mod_eq_of_lt (show (bl + 7) / 8 * 2 - 0 < 256 by omega)]
  simp

theorem write_raw_cell_padded (data : List Nat) (bl : Nat)
    (hlen : data.length = (bl + 7) / 8) (hmax : bl ≤ 1023)
    (hpart : bl % 8 ≠ 0) :
    write_raw_cell (RawCell.mk data bl [] 0 255 false false) 1 =
      Res.ok ([0, (bl + 7) / 8 * 2 - 1] ++
        (data.take ((bl + 7) / 8 - 1) ++
          [data.getD ((bl + 7) / 8 - 1) 0 ||| 1 <<< (8 - bl % 8 - 1)])) := by
  unfold write_raw_cell
  simp only [writeRefsLoop]
  rw [show writeW 1 (([].length + 0 * 8 + 0 * 32) % 4294967296) =
    Res.ok [0] from rfl]
  rw [if_neg hpart, if_neg hpart]
  rw [if_pos (by omega : (bl + 7) / 8 - 1 ≤ data.length)]
  rw [get?_getD data ((bl + 7) / 8 - 1) (by omega)]
  rw [Nat.mod_eq_of_lt (show (bl + 7) / 8 * 2 - 1 < 256 by omega)]
  simp

theorem serialize_single_full (data : List Nat) (bl : Nat)
    (hmax : bl ≤ 1023) (hfull : bl % 8 = 0) :
    RawBagOfCells.serialize
      (RawBagOfCells.mk [RawCell.mk data bl [] 0 255 false false] [0]) false =
      Res.ok ([0xb5, 0xee, 0x9c, 0x72, 1, 1, 1, 1, 0, 2 + (bl + 7) / 8, 0, 0,
        (bl + 7) / 8 * 2] ++ data) := by
  have hdlb : (bl + 7) / 8 ≤ 127 := by omega
  unfold RawBagOfCells.serialize
  simp only [List.length_cons, List.length_nil, List.foldl, raw_cell_size]
  rw [if_neg (by omega : ¬ (0 + 1 > 1))]
  rw [show (bitLength ((0 + 1) % 4294967296) + 7) / 8 = 1 from rfl]
  rw [show (0 + (2 + (bl + 7) / 8 + 0 * 1)) % 4294967296 = 2 + (bl + 7) / 8
    from by omega]
  rw [show (bitLength (2 + (bl + 7) / 8) + 7) / 8 = 1 from by
    have h1 := bitLength_le8 (2 + (bl + 7) / 8) (by omega)
    have h2 := bitLength_pos (2 + (bl + 7) / 8) (by omega)
    omega]
  rw [if_neg (by omega : ¬ (1 ≥ 8))]
  rw [writeW1_ok ((0 + 1) % 4294967296) (by omega)]
  rw [writeW1_ok 0 (by omega)]
  rw [writeW1_ok (2 + (bl + 7) / 8) (by omega)]
  simp only [writeCellsLoop]
  rw [write_raw_cell_full data bl (by omega) hfull]
  simp

theorem serialize_single_partial (data : List Nat) (bl : Nat)
    (hlen : data.length = (bl + 7) / 8) (hmax : bl ≤ 1023)
    (hpart : bl % 8 ≠ 0) :
    RawBagOfCells.serialize
      (RawBagOfCells.mk [RawCell.mk data bl [] 0 255 false false] [0]) false =
      Res.ok ([0xb5, 0xee, 0x9c, 0x72, 1, 1, 1, 1, 0, 2 + (bl + 7) / 8, 0, 0,
        (bl + 7) / 8 * 2 - 1] ++
        (data.take ((bl + 7) / 8 - 1) ++
          [data.getD ((bl + 7) / 8 - 1) 0 ||| 1 <<< (8 - bl % 8 - 1)])) := by
  have hdlb : (bl + 7) / 8 ≤ 128 := by omega
  unfold RawBagOfCells.serialize
  simp only [List.length_cons, List.length_nil, List.foldl, raw_cell_size]
  rw [if_neg (by omega : ¬ (0 + 1 > 1))]
  rw [show (bitLength ((0 + 1) % 4294967296) + 7) / 8 = 1 from rfl]
  rw [show (0 + (2 + (bl + 7) / 8 + 0 * 1)) % 4294967296 = 2 + (bl + 7) / 8
    from by omega]
  rw [show (bitLength (2 + (bl + 7) / 8) + 7) / 8 = 1 from by
    have h1 := bitLength_le8 (2 + (bl + 7) / 8) (by omega)
    have h2 := bitLength_pos (2 + (bl + 7) / 8) (by omega)
    omega]
  rw [if_neg (by omega : ¬ (1 ≥ 8))]
  rw [writeW1_ok ((0 + 1) % 4294967296) (by omega)]
  rw [writeW1_ok 0 (by omega)]
  rw [writeW1_ok (2 + (bl + 7) / 8) (by omega)]
  simp only [writeCellsLoop]
  rw [write_raw_cell_padded data bl hlen hmax hpart]
  simp

theorem resolve_ordinary (d : List Nat) :
    resolve_cell_type false d = (CellType.ordinaryCell, false) := by
  cases d with
  | nil => rfl
  | cons b t => simp [resolve_cell_type]

theorem read_cell_c2_full (data : List Nat) (bl : Nat)
    (hlen : data.length = (bl + 7) / 8) (hmax : bl ≤ 1016)
    (hfull : bl % 8 = 0) :
    read_cell 1 ([0, (bl + 7) / 8 * 2] ++ data) =
      Res.ok (RawCell.mk data bl [] 0 255 false false, []) := by
  have hds : ((bl + 7) / 8 * 2 >>> 1) + ((bl + 7) / 8 * 2 &&& 1) =
      data.length := by
    rw [Nat.shiftRight_one, Nat.and_one_is_mod]
    omega
  unfold read_cell
  simp only [List.cons_append, List.nil_append, RB.monadBind_eq,
    RB.bindRB_apply, RB.readByte_cons, read_var_size_zero]
  norm_num
  rw [show ((bl + 7) / 8 * 2) >>> 1 = data.length from by
    rw [Nat.shiftRight_one]; omega]
  rw [show RB.readToVec data.length data = Res.ok (data, []) from by
    have h := RB.readToVec_append data []
    simpa using h]
  simp only []
  rw [show fixPadding data true = Res.ok (data, 0) from by
    unfold fixPadding
    rw [if_neg (by simp)]]
  simp [resolve_ordinary, CellType.ordinaryCell, RB.liftRes, RB.readList]
  omega

theorem or_low_bit (t x : Nat) (ht : t < 8)
    (hb : x * 2 ^ (t + 1) + 2 ^ t < 256) :
    x * 2 ^ (t + 1) ||| 1 <<< t = x * 2 ^ (t + 1) + 2 ^ t := by
  interval_cases t <;>
    (first
      | (have hx : x < 128 := by omega
         interval_cases x <;> decide)
      | (have hx : x < 64 := by omega
         interval_cases x <;> decide)
      | (have hx : x < 32 := by omega
         interval_cases x <;> decide)
      | (have hx : x < 16 := by omega
         interval_cases x <;> decide)
      | (have hx : x < 8 := by omega
         interval_cases x <;> decide)
      | (have hx : x < 4 := by omega
         interval_cases x <;> decide)
      | (have hx : x < 2 := by omega
         interval_cases x <;> decide)
      | (have hx : x < 1 := by omega
         interval_cases x <;> decide))

theorem last_byte_facts (t last : Nat) (ht : t ≤ 6) (hl : last < 256)
    (hp : last % 2 ^ (t + 1) = 0) :
    last ||| 1 <<< t = last + 2 ^ t ∧
    trailingZeros8 (last + 2 ^ t) = t ∧
    (last + 2 ^ t) &&& (255 ^^^ (1 <<< t)) = last := by
  have hx : last / 2 ^ (t + 1) * 2 ^ (t + 1) = last :=
    Nat.div_mul_cancel (Nat.dvd_of_mod_eq_zero hp)
  have hb : last / 2 ^ (t + 1) * 2 ^ (t + 1) + 2 ^ t < 256 := by
    rw [hx]
    interval_cases t <;> omega
  refine ⟨?_, ?_, ?_⟩
  · rw [← hx]
    rw [or_low_bit t (last / 2 ^ (t + 1)) (by omega) hb]
  · rw [← hx]
    exact trailingZeros8_spec t (last / 2 ^ (t + 1)) (by omega)
  · rw [← hx]
    exact clear_lowest_bit t (last / 2 ^ (t + 1)) (by omega) hb

theorem take_getD_eq (l : List Nat) (h : 0 < l.length) :
    l.take (l.length - 1) ++ [l.getD (l.length - 1) 0] = l := by
  induction l with
  | nil => simp at h
  | cons a tail ih =>
    cases tail with
    | nil => rfl
    | cons b t2 =>
      have h2 := ih (by simp)
      simp only [List.length_cons, Nat.add_sub_cancel] at h2 ⊢
      simp only [List.take, List.getD, List.get?] at h2 ⊢
      simp only [List.cons_append, List.cons.injEq, true_and]
      simpa using h2

set_option maxHeartbeats 1000000 in
theorem read_cell_c2_padded (data : List Nat) (bl : Nat)
    (hlen : data.length = (bl + 7) / 8) (hmax : bl ≤ 1023)
    (hpart : bl % 8 ≠ 0)
    (hlast : data.getD ((bl + 7) / 8 - 1) 0 < 256)
    (hpad : data.getD ((bl + 7) / 8 - 1) 0 % 2 ^ (8 - bl % 8) = 0) :
    read_cell 1 ([0, (bl + 7) / 8 * 2 - 1] ++
      (data.take ((bl + 7) / 8 - 1) ++
        [data.getD ((bl + 7) / 8 - 1) 0 ||| 1 <<< (8 - bl % 8 - 1)])) =
      Res.ok (RawCell.mk data bl [] 0 255 false false, []) := by
  have hdlb : 1 ≤ (bl + 7) / 8 := by omega
  rw [show 8 - bl % 8 = 8 - bl % 8 - 1 + 1 from by omega] at hpad
  obtain ⟨hor, htz, hcl⟩ := last_byte_facts (8 - bl % 8 - 1)
    (data.getD ((bl + 7) / 8 - 1) 0) (by omega) hlast hpad
  rw [hor]
  set T := 8 - bl % 8 - 1 with hTdef
  set L := data.getD ((bl + 7) / 8 - 1) 0 with hLdef
  set pre := data.take ((bl + 7) / 8 - 1) with hpredef
  have hT6 : T ≤ 6 := by omega
  have hprelen : pre.length = (bl + 7) / 8 - 1 := by
    rw [hpredef, List.length_take, hlen]
    omega
  have hlen2 : (pre ++ [L + 2 ^ T]).length = (bl + 7) / 8 := by
    simp [hprelen]
    omega
  have hfp : fixPadding (pre ++ [L + 2 ^ T]) false = Res.ok (pre ++ [L], T + 1) := by
    unfold fixPadding
    rw [if_pos ⟨by simp, rfl⟩]
    rw [show (pre ++ [L + 2 ^ T]).length - 1 = pre.length from by
      simp]
    rw [getD_append_last pre (L + 2 ^ T)]
    simp only []
    rw [htz]
    rw [if_neg (by omega : ¬ T ≥ 8)]
    rw [hcl, List.set_append_last]
  unfold read_cell
  simp only [List.cons_append, List.nil_append, RB.monadBind_eq,
    RB.bindRB_apply, RB.readByte_cons, read_var_size_zero]
  norm_num
  rw [show ((bl + 7) / 8 * 2 - 1) >>> 1 + ((bl + 7) / 8 * 2 - 1) % 2 =
      (pre ++ [L + 2 ^ T]).length from by
    rw [Nat.shiftRight_one, hlen2]
    omega]
  rw [show RB.readToVec (pre ++ [L + 2 ^ T]).length (pre ++ [L + 2 ^ T]) =
      Res.ok ((pre ++ [L + 2 ^ T]), []) from by
    have h := RB.readToVec_append (pre ++ [L + 2 ^ T]) []
    simpa using h]
  simp only []
  rw [show ((bl + 7) / 8 * 2 - 1) % 2 = 1 from by omega]
  norm_num
  rw [hfp]
  have hdata : pre ++ [L] = data := by
    rw [hpredef, hLdef]
    have h := take_getD_eq data (by omega)
    rw [hlen] at h
    exact h
  simp only [RB.liftRes, RB.readList, RB.pure_apply]
  rw [hdata]
  simp [resolve_ordinary, CellType.ordinaryCell]
  omega

set_option maxHeartbeats 1000000 in
theorem rawParse_single (n : Nat) (cb : List Nat) (rc : RawCell)
    (hn : cb.length = n) (hn256 : n < 256)
    (hrc : read_cell 1 cb = Res.ok (rc, [])) :
    RawBagOfCells.parse ([0xb5, 0xee, 0x9c, 0x72, 1, 1, 1, 1, 0, n, 0] ++ cb) =
      Res.ok (RawBagOfCells.mk [rc] [0]) := by
  unfold RawBagOfCells.parse rawParseReader rawParseHeaderAndCells
  simp only [List.cons_append, List.nil_append, RB.monadBind_eq,
    RB.bindRB_apply, RB.readBE, RB.readToVec, RB.readByte_cons,
    RB.pure_apply, read_var_size, RB.remainingLen, RB.readList]
  norm_num
  rw [if_pos (by decide :
    ((181 <<< 8 ||| 238) <<< 8 ||| 156) <<< 8 ||| 114 = GENERIC_BOC_MAGIC)]
  simp only [RB.bindRB_apply, RB.readByte_cons, RB.pure_apply, RB.readToVec,
    RB.monadBind_eq, RB.readList, RB.remainingLen, List.foldl]
  norm_num
  rw [if_neg (by decide : ¬ (Nat.testBit 1 7 = true))]
  simp only [RB.bindRB_apply, RB.pure_apply, RB.remainingLen]
  rw [hn]
  rw [if_neg (Nat.lt_irrefl n)]
  simp only [RB.bindRB_apply]
  rw [hrc]
  simp only [RB.bindRB_apply, RB.pure_apply]
  rw [if_neg (by decide : ¬ (Nat.testBit 1 6 = true))]
  simp only [RB.bindRB_apply, RB.pure_apply]

theorem parse_single (n : Nat) (cb data : List Nat) (bl : Nat) (fc : Cell)
    (hn : cb.length = n) (hn256 : n < 256)
    (hrc : read_cell 1 cb =
      Res.ok (RawCell.mk data bl [] 0 255 false false, []))
    (hfin : Cell.finalize (Cell.mk data bl [] 255 0 false false false [] [])
      = Res.ok fc) :
    BagOfCells.parse ([0xb5, 0xee, 0x9c, 0x72, 1, 1, 1, 1, 0, n, 0] ++ cb) =
      Res.ok (BagOfCells.mk [fc]) := by
  have hloop : BagOfCells.parseCellsLoop
      [RawCell.mk data bl [] 0 255 false false] 1 1 [] = Res.ok [fc] := by
    unfold BagOfCells.parseCellsLoop
    simp only [List.get?, BagOfCells.buildRefs]
    rw [hfin]
    rfl
  have hroots : BagOfCells.buildRoots 1 [fc] [0] = Res.ok [fc] := by
    simp [BagOfCells.buildRoots, BagOfCells.cellAt]
  unfold BagOfCells.parse
  rw [rawParse_single n cb _ hn hn256 hrc]
  simp only [List.length_cons, List.length_nil, Nat.zero_add]
  rw [hloop]
  simp only []
  rw [hroots]

/-- C2, amended success direction for single ordinary cells. -/
theorem claim_c2 (data : List Nat) (bl : Nat) (fc : Cell)
    (hfin : Cell.finalize (Cell.mk data bl [] 255 0 false false false [] [])
      = Res.ok fc)
    (hlen : data.length = (bl + 7) / 8) (hmax : bl ≤ 1023)
    (hbyte : ∀ b ∈ data, b < 256)
    (hpad : bl % 8 ≠ 0 →
      data.getD ((bl + 7) / 8 - 1) 0 % 2 ^ (8 - bl % 8) = 0) :
    ∃ bytes, BagOfCells.serialize (BagOfCells.mk [fc]) false = Res.ok bytes ∧
      BagOfCells.parse bytes = Res.ok (BagOfCells.mk [fc]) := by
  obtain ⟨hs, dp, rfl⟩ := finalize_ordinary_shape data bl fc hfin
  have hser0 : BagOfCells.serialize
      (BagOfCells.mk [Cell.mk data bl [] 255 0 false false false hs dp])
      false = RawBagOfCells.serialize
        (RawBagOfCells.mk [RawCell.mk data bl [] 0 255 false false] [0])
        false := by
    unfold BagOfCells.serialize
    rw [to_raw_single]
  by_cases hf : bl % 8 = 0
  · have hmax2 : bl ≤ 1016 := by omega
    refine ⟨[0xb5, 0xee, 0x9c, 0x72, 1, 1, 1, 1, 0, 2 + (bl + 7) / 8, 0, 0,
      (bl + 7) / 8 * 2] ++ data, ?_, ?_⟩
    · rw [hser0]
      exact serialize_single_full data bl hmax hf
    · rw [show ([0xb5, 0xee, 0x9c, 0x72, 1, 1, 1, 1, 0, 2 + (bl + 7) / 8, 0,
          0, (bl + 7) / 8 * 2] ++ data : List Nat) =
        [0xb5, 0xee, 0x9c, 0x72, 1, 1, 1, 1, 0, 2 + (bl + 7) / 8, 0] ++
          ([0, (bl + 7) / 8 * 2] ++ data) from by simp]
      exact parse_single (2 + (bl + 7) / 8) ([0, (bl + 7) / 8 * 2] ++ data)
        data bl _ (by simp [hlen]; omega) (by omega)
        (read_cell_c2_full data bl hlen hmax2 hf) hfin
  · have hlast : data.getD ((bl + 7) / 8 - 1) 0 < 256 := by
      have hmem : data.getD ((bl + 7) / 8 - 1) 0 ∈ data := by
        have hq := get?_getD data ((bl + 7) / 8 - 1) (by omega)
        exact List.get?_mem hq
      exact hbyte _ hmem
    refine ⟨[0xb5, 0xee, 0x9c, 0x72, 1, 1, 1, 1, 0, 2 + (bl + 7) / 8, 0, 0,
      (bl + 7) / 8 * 2 - 1] ++
        (data.take ((bl + 7) / 8 - 1) ++
          [data.getD ((bl + 7) / 8 - 1) 0 ||| 1 <<< (8 - bl % 8 - 1)]),
      ?_, ?_⟩
    · rw [hser0]
      exact serialize_single_partial data bl hlen hmax hf
    · rw [show ([0xb5, 0xee, 0x9c, 0x72, 1, 1, 1, 1, 0, 2 + (bl + 7) / 8, 0,
          0, (bl + 7) / 8 * 2 - 1] ++
          (data.take ((bl + 7) / 8 - 1) ++
            [data.getD ((bl + 7) / 8 - 1) 0 ||| 1 <<< (8 - bl % 8 - 1)]) :
          List Nat) =
        [0xb5, 0xee, 0x9c, 0x72, 1, 1, 1, 1, 0, 2 + (bl + 7) / 8, 0] ++
          ([0, (bl + 7) / 8 * 2 - 1] ++
            (data.take ((bl + 7) / 8 - 1) ++
              [data.getD ((bl + 7) / 8 - 1) 0 ||| 1 <<< (8 - bl % 8 - 1)]))
        from by simp]
      refine parse_single (2 + (bl + 7) / 8)
        ([0, (bl + 7) / 8 * 2 - 1] ++
          (data.take ((bl + 7) / 8 - 1) ++
            [data.getD ((bl + 7) / 8 - 1) 0 ||| 1 <<< (8 - bl % 8 - 1)]))
        data bl _ ?_ (by omega)
        (read_cell_c2_padded data bl hlen hmax hf hlast (hpad hf)) hfin
      simp [hlen]
      omega

/-- C2, counterexample: the finalized pruned-branch cell serializes, but
`write_raw_cell` hard-codes `level = 0` and `is_exotic = 0`, so the
re-parsed bag holds an ordinary cell and differs from the original. -/
theorem claim_c2_counterexample :
    Cell.finalize prunedInput = Res.ok prunedFinalized ∧
    BagOfCells.serialize (BagOfCells.mk [prunedFinalized]) false =
      Res.ok c2bytes ∧
    BagOfCells.parse c2bytes ≠ Res.ok (BagOfCells.mk [prunedFinalized]) := by
  decide

/-- C2, witness: the two-byte ordinary cell `AB CD` round-trips. -/
theorem claim_c2_witness :
    Cell.finalize (Cell.mk [0xAB, 0xCD] 16 [] 255 0 false false false [] [])
      = Res.ok (Cell.mk [0xAB, 0xCD] 16 [] 255 0 false false false
          [sha256 [0, 4, 0xAB, 0xCD]] [0]) ∧
    ([0xAB, 0xCD] : List Nat).length = (16 + 7) / 8 ∧
    (∃ bytes,
      BagOfCells.serialize (BagOfCells.mk
        [Cell.mk [0xAB, 0xCD] 16 [] 255 0 false false false
          [sha256 [0, 4, 0xAB, 0xCD]] [0]]) false = Res.ok bytes ∧
      BagOfCells.parse bytes = Res.ok (BagOfCells.mk
        [Cell.mk [0xAB, 0xCD] 16 [] 255 0 false false false
          [sha256 [0, 4, 0xAB, 0xCD]] [0]])) :=
  ⟨by decide, by decide,
   claim_c2 [0xAB, 0xCD] 16 _ (by decide) (by decide) (by decide)
     (by decide) (fun h => absurd rfl h)⟩

end Ton
